import Mathlib

set_option maxRecDepth 16000

/-!
Verification of the DBEngine embedded key-value store (paged sorted index
over an append-only log).

The definitions below are a shallow embedding of the C++ sources:
`dbengine.cpp` (the variant with caller-supplied keys: `append`, `get`,
`deleteRecord`, `open`, `loadDBHeader`, `saveDBHeader`) and the index
implementation file (`validateIndex`, `saveIndexHeader`, `loadIndexHeader`,
`flushIndexPage`, `loadIndexPage`, `getIndexEntry`, `setIndexEntry`,
`splitPageAndInsert`, `insertIndexEntry`, `searchIndex`, `btreeLocateKey`,
`dbBuildIndex`).

Modelling conventions:
  * Machine integers (uint8/uint16/uint32) are modelled as `Nat`; the code
    only compares keys and adds small offsets, so no wrap-around is
    reachable in the modelled operations (noted inline where it matters).
  * The index file is modelled at IndexEntry-slot granularity: every read
    and write of index data in the source is a whole number of 10-byte
    packed `IndexEntry` records at a slot-aligned position, so slot `i` of
    `idxDisk` stands for file bytes `[4 + 10*i, 4 + 10*(i+1))` (the file
    starts with the 4-byte `_indexCount` header the code writes).  The
    byte-offset expressions of the source are embedded separately as
    `flushPageByteOffset` etc. for the layout claims.
  * The log file is modelled as a byte list (`List Nat`, each < 256).
  * `fopen` semantics: `"rb"`/`"rb+"` fail iff the file does not exist,
    `"wb"`/`"wb+"` create or truncate; `fseek` beyond EOF succeeds and a
    subsequent write zero-fills the gap, a read returns the available bytes.
  * Loops are written with an explicit fuel argument (structural recursion)
    so that the model is executable by kernel reduction; callers pass a
    fuel that provably dominates the iteration count.
  * Backend I/O faults are injected only into the log-file phase of
    `append` (a `List Bool` oracle, one flag per primitive call, `true` =
    that call fails); `[]` means no injected faults.  All other operations
    are modelled over an ideal backend whose only failure mode is opening
    a nonexistent file.
-/

/-- MAX_INDEX_ENTRIES from DBEngine.h: entries per index page. -/
def MAX_INDEX_ENTRIES : Nat := 256

/-- DB_MAGIC_NUMBER from DBEngine.h: the log-file magic value ("LOGS"). -/
def DB_MAGIC_NUMBER : Nat := 0x53474F4C

/-- DB_VERSION from DBEngine.h. -/
def DB_VERSION : Nat := 1

/-- INTERNAL_STATUS_DELETED from DBEngine.h: tombstone bit. -/
def INTERNAL_STATUS_DELETED : Nat := 1

/-- struct IndexEntry (packed, 10 bytes): key:u32, offset:u32, status:u8,
internal_status:u8. -/
structure IndexEntry where
  key : Nat
  offset : Nat
  status : Nat
  internal_status : Nat
deriving Repr, DecidableEq

/-- The all-zero IndexEntry (zero-filled slots read as this). -/
def zeroEntry : IndexEntry := ⟨0, 0, 0, 0⟩

/-- Little-endian bytes of a u16. -/
def le16 (n : Nat) : List Nat := [n % 256, n / 256 % 256]

/-- Little-endian bytes of a u32. -/
def le32 (n : Nat) : List Nat :=
  [n % 256, n / 256 % 256, n / 2 ^ 16 % 256, n / 2 ^ 24 % 256]

/-- struct DBHeader (packed, 6 bytes): magic:u32, version:u16, as written
by saveDBHeader / the append create path. -/
def dbHeaderBytes : List Nat := le32 DB_MAGIC_NUMBER ++ le16 DB_VERSION

/-- struct LogEntryHeader (packed, 9 bytes): recordType:u8, length:u16,
key:u32, status:u8, internal_status:u8. -/
def logEntryHeaderBytes (recordType length key status internal : Nat) : List Nat :=
  [recordType % 256] ++ le16 length ++ le32 key ++ [status % 256, internal % 256]

/-- sizeof(LogEntryHeader): 1 + 2 + 4 + 1 + 1 = 9 bytes (packed). -/
def sizeofLogEntryHeader : Nat := 9

/-- sizeof(IndexEntry): 4 + 4 + 1 + 1 = 10 bytes (packed). -/
def sizeofIndexEntry : Nat := 10

/-- sizeof(_indexCount): the u32 the index functions write/read at file
offset 0 as the index header. -/
def sizeofIndexCount : Nat := 4

/-- The engine state: the DBEngine object fields (`_indexCount`,
`_indexPage`, `_currentPageNumber`, `_pageLoaded`, `_pageDirty`) together
with the contents of the two files it owns.  `idxDisk` is the index file
after its 4-byte header, one element per 10-byte IndexEntry slot;
`idxHeaderCount` is the u32 stored in that header.  `log` is the byte
content of the log file. -/
structure DB where
  idxExists : Bool
  idxHeaderCount : Nat
  idxDisk : List IndexEntry
  logExists : Bool
  log : List Nat
  indexCount : Nat
  page : List IndexEntry
  currentPageNumber : Nat
  pageLoaded : Bool
  pageDirty : Bool
deriving Repr, DecidableEq

/-- A freshly constructed engine (constructor + no files on disk). -/
def freshDB : DB :=
  { idxExists := false, idxHeaderCount := 0, idxDisk := []
    logExists := false, log := []
    indexCount := 0, page := List.replicate MAX_INDEX_ENTRIES zeroEntry
    currentPageNumber := 0, pageLoaded := false, pageDirty := false }

/-- Number of entries a page holds on disk: the guarded
`MIN(MAX_INDEX_ENTRIES, _indexCount - pageFirstIndex)` computation used by
flushIndexPage and loadIndexPage (0 when the page lies beyond the data). -/
def entriesInPageOf (count first : Nat) : Nat :=
  if count > first then min MAX_INDEX_ENTRIES (count - first) else 0

/-- Overwrite `disk` with `xs` starting at slot `off` (fseek + fwrite:
seeking past EOF then writing zero-fills the gap; writing nothing changes
nothing). -/
def writeSlots (disk : List IndexEntry) (off : Nat) (xs : List IndexEntry) :
    List IndexEntry :=
  if xs.isEmpty then disk
  else disk.take off ++ List.replicate (off - disk.length) zeroEntry ++ xs
    ++ disk.drop (off + xs.length)

/-- Read up to `n` slots of `disk` from slot `off` (fread: a short read
returns the bytes available). -/
def readSlots (disk : List IndexEntry) (off n : Nat) : List IndexEntry :=
  (disk.drop off).take n

/-- Overwrite one byte of a byte file at `off` (fseek + 1-byte fwrite,
zero-filling any gap past EOF). -/
def writeByteAt (file : List Nat) (off b : Nat) : List Nat :=
  file.take off ++ List.replicate (off - file.length) 0 ++ [b]
    ++ file.drop (off + 1)

/-- In-page ordered insert used by insertIndexEntry and splitPageAndInsert:
memmove slots `[sl, n)` one slot right (to `[sl+1, n+1)`) and then assign
`key`, `offset` and `status` of slot `sl`.  The `internal_status` byte of
slot `sl` is not assigned by the source, so it keeps the value the slot
held before the assignment. -/
def pageShiftInsert (pg : List IndexEntry) (sl n key offset status : Nat) :
    List IndexEntry :=
  pg.take sl
    ++ [{ key := key, offset := offset, status := status,
          internal_status := (pg.getD sl zeroEntry).internal_status }]
    ++ (pg.drop sl).take (n - sl) ++ pg.drop (n + 1)

/-- DBEngine::saveIndexHeader: open the index file "rb+" (or create it
with "wb", truncating), seek to 0 and write the u32 `_indexCount`. -/
def saveIndexHeader (s : DB) : DB × Bool :=
  if s.idxExists then
    ({ s with idxHeaderCount := s.indexCount }, true)
  else
    ({ s with idxExists := true, idxDisk := [], idxHeaderCount := s.indexCount },
     true)

/-- DBEngine::loadIndexHeader: open "rb" (missing file: `_indexCount := 0`,
success), read the u32 header into `_indexCount`. -/
def loadIndexHeader (s : DB) : DB × Bool :=
  if s.idxExists then ({ s with indexCount := s.idxHeaderCount }, true)
  else ({ s with indexCount := 0 }, true)

/-- DBEngine::flushIndexPage: nothing to do when clean; otherwise open
"rb+" (fails if the index file does not exist), seek to the current page's
byte offset, write `entriesInPage` entries from the resident buffer, then
rewrite the header via saveIndexHeader and clear the dirty flag. -/
def flushIndexPage (s : DB) : DB × Bool :=
  if s.pageDirty = false then (s, true)
  else if s.idxExists = false then (s, false)
  else
    let first := s.currentPageNumber * MAX_INDEX_ENTRIES
    let n := entriesInPageOf s.indexCount first
    let s1 := { s with idxDisk := writeSlots s.idxDisk first (s.page.take n) }
    let s2 := (saveIndexHeader s1).1
    ({ s2 with pageDirty := false }, true)

/-- DBEngine::loadIndexPage: flush first, open "rb" (fails if the file does
not exist), seek to the page's byte offset and read
`expectedEntries = entriesInPageOf` entries.  A short or empty read is
accepted; only the unread part of the first `expectedEntries` slots is
zero-filled (the memset covers `[bytesRead, bytesExpected)` only), so the
buffer beyond `expectedEntries` keeps its previous contents. -/
def loadIndexPage (s : DB) (p : Nat) : DB × Bool :=
  match flushIndexPage s with
  | (s1, false) => (s1, false)
  | (s1, true) =>
    if s1.idxExists = false then (s1, false)
    else
      let first := p * MAX_INDEX_ENTRIES
      let expected := entriesInPageOf s1.indexCount first
      let fresh := readSlots s1.idxDisk first expected
      let page1 := fresh ++ List.replicate (expected - fresh.length) zeroEntry
        ++ s1.page.drop expected
      ({ s1 with page := page1, currentPageNumber := p,
                 pageLoaded := true, pageDirty := false }, true)

/-- DBEngine::getIndexEntry: load the containing page if it is not the
resident one, then copy slot `globalIndex % MAX_INDEX_ENTRIES` out of the
resident buffer.  There is no bounds check of `globalIndex` against
`_indexCount`. -/
def getIndexEntry (s : DB) (g : Nat) : DB × Option IndexEntry :=
  let page := g / MAX_INDEX_ENTRIES
  let slot := g % MAX_INDEX_ENTRIES
  if s.pageLoaded = false ∨ s.currentPageNumber ≠ page then
    match loadIndexPage s page with
    | (s1, false) => (s1, none)
    | (s1, true) => (s1, some (s1.page.getD slot zeroEntry))
  else (s, some (s.page.getD slot zeroEntry))

/-- DBEngine::setIndexEntry: load the containing page if needed, overwrite
the slot in the resident buffer and mark the page dirty. -/
def setIndexEntry (s : DB) (g : Nat) (e : IndexEntry) : DB × Bool :=
  let page := g / MAX_INDEX_ENTRIES
  let slot := g % MAX_INDEX_ENTRIES
  if s.pageLoaded = false ∨ s.currentPageNumber ≠ page then
    match loadIndexPage s page with
    | (s1, false) => (s1, false)
    | (s1, true) =>
      ({ s1 with page := s1.page.set slot e, pageDirty := true }, true)
  else ({ s with page := s.page.set slot e, pageDirty := true }, true)

/-- The binary-search loop of DBEngine::insertIndexEntry (`while (low <
high)`, probe `mid`, `entry.key < key ? low = mid+1 : high = mid`).  `fuel`
bounds the iteration count; callers pass more than `high - low`. -/
def lowerBoundLoop (s : DB) (key : Nat) : Nat → Nat → Nat → DB × Option Nat
  | _, _, 0 => (s, none)
  | low, high, fuel + 1 =>
    if low < high then
      let mid := (low + high) / 2
      match getIndexEntry s mid with
      | (s1, none) => (s1, none)
      | (s1, some e) =>
        if e.key < key then lowerBoundLoop s1 key (mid + 1) high fuel
        else lowerBoundLoop s1 key low mid fuel
    else (s, some low)

/-- DBEngine::splitPageAndInsert: copy the upper half `[m, MAX)` of the
resident (full) page into a temporary buffer, insert the new entry into the
lower half (shifting `[s, m)` right) or into the temporary buffer (shifting
its `[s-m, MAX-m)` right), increment `_indexCount`, flush the resident
page, and write `MAX - m` entries of the temporary buffer to page
`targetPage + 1`'s byte offset, then rewrite the header.  (When the entry
goes to the temporary buffer, the shift produces `MAX - m + 1` live entries
but only `MAX - m` are written.) -/
def splitPageAndInsert (s : DB) (targetPage offsetInPage key recordOffset status : Nat) :
    DB × Bool :=
  let m := MAX_INDEX_ENTRIES / 2
  let newPage := (s.page.drop m).take (MAX_INDEX_ENTRIES - m)
  let st :=
    if offsetInPage < m then
      { s with page := pageShiftInsert s.page offsetInPage m key recordOffset status }
    else s
  let newPage1 :=
    if offsetInPage < m then newPage
    else (pageShiftInsert newPage (offsetInPage - m) (MAX_INDEX_ENTRIES - m)
            key recordOffset status).take (MAX_INDEX_ENTRIES - m)
  let st1 := { st with indexCount := st.indexCount + 1, pageDirty := true }
  match flushIndexPage st1 with
  | (s2, false) => (s2, false)
  | (s2, true) =>
    let newFirst := (targetPage + 1) * MAX_INDEX_ENTRIES
    let s3 := { s2 with idxDisk := writeSlots s2.idxDisk newFirst newPage1 }
    let s4 := (saveIndexHeader s3).1
    ({ s4 with pageDirty := false }, true)

/-- The tail of DBEngine::insertIndexEntry after the uniqueness checks
(source lines 384-421): compute the target page and slot, demand-load the
page, and insert in place (flushing if the page becomes full) or split a
full page. -/
def insertAtPos (s : DB) (pos key offset status : Nat) : DB × Bool :=
  let targetPage := pos / MAX_INDEX_ENTRIES
  let offsetInPage := pos % MAX_INDEX_ENTRIES
  let load : DB × Bool :=
    if s.pageLoaded = false ∨ s.currentPageNumber ≠ targetPage then
      loadIndexPage s targetPage
    else (s, true)
  match load with
  | (s4, false) => (s4, false)
  | (s4, true) =>
    let first := targetPage * MAX_INDEX_ENTRIES
    let entriesInPage := min MAX_INDEX_ENTRIES (s4.indexCount - first)
    if entriesInPage < MAX_INDEX_ENTRIES then
      let s5 := { s4 with
        page := pageShiftInsert s4.page offsetInPage entriesInPage key offset status,
        indexCount := s4.indexCount + 1, pageDirty := true }
      if entriesInPage + 1 == MAX_INDEX_ENTRIES then
        flushIndexPage s5
      else (s5, true)
    else
      splitPageAndInsert s4 targetPage offsetInPage key offset status

/-- DBEngine::insertIndexEntry: binary search for the global insertion
position, recheck uniqueness at `pos` and `pos - 1`, then insert via
insertAtPos.  The index implementation file defines this with three data
arguments (key, offset, status); the fourth argument passed by `append` in
the caller-supplied-key variant has no corresponding parameter there, and
the inserted slot's `internal_status` byte is simply never assigned. -/
def insertIndexEntry (s : DB) (key offset status : Nat) : DB × Bool :=
  match lowerBoundLoop s key 0 s.indexCount (s.indexCount + 1) with
  | (s1, none) => (s1, false)
  | (s1, some pos) =>
    let dup1 : DB × Option Bool :=
      if pos < s1.indexCount then
        match getIndexEntry s1 pos with
        | (s2, none) => (s2, none)
        | (s2, some e) => (s2, some (e.key == key))
      else (s1, some false)
    match dup1 with
    | (s2, none) => (s2, false)
    | (s2, some true) => (s2, false)
    | (s2, some false) =>
      let dup2 : DB × Option Bool :=
        if pos > 0 then
          match getIndexEntry s2 (pos - 1) with
          | (s3, none) => (s3, none)
          | (s3, some e) => (s3, some (e.key == key))
        else (s2, some false)
      match dup2 with
      | (s3, none) => (s3, false)
      | (s3, some true) => (s3, false)
      | (s3, some false) => insertAtPos s3 pos key offset status

/-- The binary-search loop of DBEngine::searchIndex (exact match). -/
def searchLoop (s : DB) (key : Nat) : Nat → Nat → Nat → DB × Option (Option Nat)
  | _, _, 0 => (s, none)
  | low, high, fuel + 1 =>
    if low < high then
      let mid := (low + high) / 2
      match getIndexEntry s mid with
      | (s1, none) => (s1, none)
      | (s1, some e) =>
        if e.key == key then (s1, some (some mid))
        else if e.key < key then searchLoop s1 key (mid + 1) high fuel
        else searchLoop s1 key low mid fuel
    else (s, some none)

/-- DBEngine::searchIndex: paged binary search for an exact key; `some i`
when found at global index `i`, `none` when not found or on I/O failure
(the source conflates the two in its bool return). -/
def searchIndex (s : DB) (key : Nat) : DB × Option Nat :=
  match searchLoop s key 0 s.indexCount (s.indexCount + 1) with
  | (s1, none) => (s1, none)
  | (s1, some r) => (s1, r)

/-- The loop of DBEngine::btreeLocateKey: lower-bound search recording the
last probe with `entry.key >= key` in `result`. -/
def btreeLocateKeyLoop (s : DB) (key : Nat) :
    Nat → Nat → Nat → Nat → DB × Option Nat
  | _, _, _, 0 => (s, none)
  | low, high, result, fuel + 1 =>
    if low < high then
      let mid := (low + high) / 2
      match getIndexEntry s mid with
      | (s1, none) => (s1, none)
      | (s1, some e) =>
        if e.key ≥ key then btreeLocateKeyLoop s1 key low mid mid fuel
        else btreeLocateKeyLoop s1 key (mid + 1) high result fuel
    else (s, some result)

/-- DBEngine::btreeLocateKey: the smallest global position whose key is ≥
`key`; not-found when no probe ever saw such a key. -/
def btreeLocateKey (s : DB) (key : Nat) : DB × Option Nat :=
  match btreeLocateKeyLoop s key 0 s.indexCount s.indexCount (s.indexCount + 1) with
  | (s1, none) => (s1, none)
  | (s1, some r) =>
    if r < s1.indexCount then (s1, some r) else (s1, none)

/-- The scan of DBEngine::validateIndex over the first page: fails when
some adjacent pair has `key[i] > key[i+1]`. -/
def validateScan (pg : List IndexEntry) : Nat → Nat → Bool
  | _, 0 => true
  | i, fuel + 1 =>
    if (pg.getD i zeroEntry).key > (pg.getD (i + 1) zeroEntry).key then false
    else validateScan pg (i + 1) fuel

/-- DBEngine::validateIndex: empty index is valid; otherwise load page 0
and check that its first `min(MAX, _indexCount)` keys are in (non-strictly)
sorted order. -/
def validateIndex (s : DB) : DB × Bool :=
  if s.indexCount = 0 then (s, true)
  else
    match loadIndexPage s 0 with
    | (s1, false) => (s1, false)
    | (s1, true) =>
      let entries := min MAX_INDEX_ENTRIES s1.indexCount
      (s1, validateScan s1.page 0 (entries - 1))

/-- DBEngine::dbBuildIndex, the definition behind the `loadIndex` call of
`open` in the caller-supplied-key variant: load the index header, create
the index file (saving the header) when the count is 0, and validate. -/
def dbBuildIndex (s : DB) : DB × Bool :=
  let (s1, result) := loadIndexHeader s
  let create : DB × Bool :=
    if s1.indexCount = 0 then saveIndexHeader s1 else (s1, true)
  match create with
  | (s2, false) => (s2, false)
  | (s2, true) =>
    match validateIndex s2 with
    | (s3, false) => (s3, false)
    | (s3, true) => (s3, result)

/-- DBEngine::loadIndex as called by `open`; its body in the repository is
dbBuildIndex (the declaration's documented behaviour and the spec's open
steps 5-6 match it). -/
def loadIndex (s : DB) : DB × Bool := dbBuildIndex s

/-- DBEngine::findIndexEntry: searchIndex, then the found entry's offset. -/
def findIndexEntry (s : DB) (key : Nat) : DB × Option Nat :=
  match searchIndex s key with
  | (s1, none) => (s1, none)
  | (s1, some idx) =>
    match getIndexEntry s1 idx with
    | (s2, none) => (s2, none)
    | (s2, some e) => (s2, some e.offset)

/-- Pop one flag from the fault oracle (`true` = the next log-file
primitive call fails); an exhausted oracle means no further faults. -/
def popFault : List Bool → Bool × List Bool
  | [] => (false, [])
  | f :: r => (f, r)

/-- The log-file phase of DBEngine::append (lines between the duplicate
check and the index update): open `"r+b"` (on failure create with `"wb+"`
and write a fresh DBHeader), seek to end, `offset := tell()`, write the
LogEntryHeader (status = 0, internal_status = 0) and the payload.  Returns
the record offset, or `none` if any step failed. -/
def appendLogPhase (faults : List Bool) (s : DB) (key recordType : Nat)
    (record : List Nat) : DB × Option Nat :=
  let (f1, faults) := popFault faults
  let openExisting := s.logExists && !f1
  let afterOpen : Option (DB × List Bool) :=
    if openExisting then some (s, faults)
    else
      let (f2, faults) := popFault faults
      if f2 then none
      else
        let s := { s with logExists := true, log := [] }
        let (f3, faults) := popFault faults
        if f3 then none
        else some ({ s with log := s.log ++ dbHeaderBytes }, faults)
  match afterOpen with
  | none => (s, none)
  | some (s1, faults) =>
    let (f4, faults) := popFault faults
    if f4 then (s1, none)
    else
      let offset := s1.log.length
      let (f5, faults) := popFault faults
      if f5 then (s1, none)
      else
        let s2 := { s1 with
          log := s1.log ++ logEntryHeaderBytes recordType record.length key 0 0 }
        let (f6, _) := popFault faults
        if f6 then (s2, none)
        else ({ s2 with log := s2.log ++ record.map (· % 256) }, some offset)

/-- DBEngine::append (caller-supplied-key variant): search the index for
the key; a live hit aborts, a tombstoned hit is reused (offset overwritten,
internal_status cleared, via setIndexEntry), a miss leads to
insertIndexEntry after the log phase. -/
def append (faults : List Bool) (s : DB) (key recordType : Nat)
    (record : List Nat) : DB × Bool :=
  match searchIndex s key with
  | (s1, some foundIndex) =>
    match getIndexEntry s1 foundIndex with
    | (s2, none) => (s2, false)
    | (s2, some existing) =>
      if existing.internal_status &&& INTERNAL_STATUS_DELETED == 0 then
        (s2, false)
      else
        match appendLogPhase faults s2 key recordType record with
        | (s3, none) => (s3, false)
        | (s3, some offset) =>
          match getIndexEntry s3 foundIndex with
          | (s4, none) => (s4, false)
          | (s4, some entry) =>
            setIndexEntry s4 foundIndex
              { entry with offset := offset, internal_status := 0 }
  | (s1, none) =>
    match appendLogPhase faults s1 key recordType record with
    | (s3, none) => (s3, false)
    | (s3, some offset) => insertIndexEntry s3 key offset 0

/-- DBEngine::get: find the key's offset through the index, open the log
"rb" (fails if missing), read the 9-byte LogEntryHeader at that offset,
reject `length > bufferSize`, and read `length` payload bytes. -/
def dbGet (s : DB) (key bufferSize : Nat) : DB × Option (List Nat) :=
  match findIndexEntry s key with
  | (s1, none) => (s1, none)
  | (s1, some offset) =>
    if s1.logExists = false then (s1, none)
    else
      let header := (s1.log.drop offset).take sizeofLogEntryHeader
      if header.length < sizeofLogEntryHeader then (s1, none)
      else
        let len := header.getD 1 0 + 256 * header.getD 2 0
        if len > bufferSize then (s1, none)
        else
          let payload := (s1.log.drop (offset + sizeofLogEntryHeader)).take len
          if payload.length < len then (s1, none)
          else (s1, some payload)

/-- DBEngine::deleteRecord: search (miss fails); if the tombstone bit is
already set succeed without touching anything; otherwise write the single
byte `internal_status | DELETED` at log offset `entry.offset + 8` (1 + 2 +
4 + 1 bytes into the LogEntryHeader) and update the index entry. -/
def deleteRecord (s : DB) (key : Nat) : DB × Bool :=
  match searchIndex s key with
  | (s1, none) => (s1, false)
  | (s1, some index) =>
    match getIndexEntry s1 index with
    | (s2, none) => (s2, false)
    | (s2, some entry) =>
      if entry.internal_status &&& INTERNAL_STATUS_DELETED ≠ 0 then (s2, true)
      else
        let newInternal := entry.internal_status ||| INTERNAL_STATUS_DELETED
        if s2.logExists = false then (s2, false)
        else
          let s3 := { s2 with
            log := writeByteAt s2.log (entry.offset + 8) (newInternal % 256) }
          setIndexEntry s3 index { entry with internal_status := newInternal }

/-- DBEngine::loadDBHeader: open the log "rb" (missing file fails), read
the 6-byte DBHeader, and validate magic and version. -/
def loadDBHeader (s : DB) : DB × Bool :=
  if s.logExists = false then (s, false)
  else if s.log.length < 6 then (s, false)
  else
    let magic := s.log.getD 0 0 + 256 * s.log.getD 1 0
      + 2 ^ 16 * s.log.getD 2 0 + 2 ^ 24 * s.log.getD 3 0
    let version := s.log.getD 4 0 + 256 * s.log.getD 5 0
    if magic ≠ DB_MAGIC_NUMBER then (s, false)
    else if version ≠ DB_VERSION then (s, false)
    else (s, true)

/-- DBEngine::saveDBHeader: open "rb+" (create with "wb+" if missing,
truncating), seek 0, write a fresh 6-byte DBHeader. -/
def saveDBHeader (s : DB) : DB × Bool :=
  if s.logExists then
    ({ s with log := dbHeaderBytes ++ s.log.drop 6 }, true)
  else
    ({ s with logExists := true, log := dbHeaderBytes }, true)

/-- DBEngine::open: record the file names, reset the page-cache state,
try to load and validate the DBHeader — on ANY failure (including a magic
or version mismatch) write a fresh header with saveDBHeader and continue —
then load the in-memory index. -/
def openDB (s : DB) : DB × Bool :=
  let s0 := { s with indexCount := 0, pageLoaded := false, pageDirty := false,
                     currentPageNumber := 0 }
  match loadDBHeader s0 with
  | (s1, true) => loadIndex s1
  | (s1, false) =>
    match saveDBHeader s1 with
    | (s2, false) => (s2, false)
    | (s2, true) => loadIndex s2

/-- Whether global position `g` falls in the resident page. -/
def resident (s : DB) (g : Nat) : Prop :=
  s.pageLoaded = true ∧ g / MAX_INDEX_ENTRIES = s.currentPageNumber

instance (s : DB) (g : Nat) : Decidable (resident s g) := by
  unfold resident; infer_instance

/-- The logical index entry at global position `g`: the resident buffer
for positions in the loaded page, the disk image otherwise (the merged
in-memory/on-disk state a reader of the engine observes). -/
def viewEnt (s : DB) (g : Nat) : IndexEntry :=
  if resident s g then s.page.getD (g % MAX_INDEX_ENTRIES) zeroEntry
  else s.idxDisk.getD g zeroEntry

/-- The logical content of the index: entries at positions
`0 .. indexCount-1`. -/
def view (s : DB) : List IndexEntry :=
  (List.range s.indexCount).map (viewEnt s)

/-- Key of the logical entry at position `g`. -/
def viewKey (s : DB) (g : Nat) : Nat := (viewEnt s g).key

/-- Strictly ascending keys over the whole logical index. -/
def SortedIndex (s : DB) : Prop :=
  ∀ j, j < s.indexCount → ∀ i, i < j → viewKey s i < viewKey s j

instance (s : DB) : Decidable (SortedIndex s) := by
  unfold SortedIndex; infer_instance

/-- Executable strict-ascending check over adjacent logical entries. -/
def sortedFromB (s : DB) : Nat → Nat → Bool
  | _, 0 => true
  | i, fuel + 1 =>
    if i + 1 < s.indexCount then
      decide (viewKey s i < viewKey s (i + 1)) && sortedFromB s (i + 1) fuel
    else true

/-- Executable check that the whole logical index is strictly ascending. -/
def sortedIndexB (s : DB) : Bool := sortedFromB s 0 s.indexCount

/-- Well-formedness of an engine state, maintained by every successful
index operation: the index file exists, the buffer has page capacity, a
dirty page is a loaded page, every logical position outside the resident
page is backed by the disk image, and a clean resident page agrees with
its disk image. -/
def EngineInv (s : DB) : Prop :=
  s.idxExists = true ∧
  s.page.length = MAX_INDEX_ENTRIES ∧
  (s.pageDirty = true → s.pageLoaded = true) ∧
  (∀ g, g < s.indexCount → ¬resident s g → g < s.idxDisk.length) ∧
  (s.pageDirty = false → s.pageLoaded = true →
    ∀ j, j < entriesInPageOf s.indexCount (s.currentPageNumber * MAX_INDEX_ENTRIES) →
      s.currentPageNumber * MAX_INDEX_ENTRIES + j < s.idxDisk.length ∧
      s.idxDisk.getD (s.currentPageNumber * MAX_INDEX_ENTRIES + j) zeroEntry =
        s.page.getD j zeroEntry)

instance (s : DB) : Decidable (EngineInv s) := by
  unfold EngineInv resident; infer_instance

/-- The byte offset flushIndexPage seeks to for page `p`:
`sizeof(_indexCount) + p * sizeof(IndexEntry) * MAX_INDEX_ENTRIES`. -/
def flushPageByteOffset (p : Nat) : Nat :=
  sizeofIndexCount + p * sizeofIndexEntry * MAX_INDEX_ENTRIES

/-- The byte offset loadIndexPage seeks to for page `p` (same formula). -/
def loadPageByteOffset (p : Nat) : Nat :=
  sizeofIndexCount + p * sizeofIndexEntry * MAX_INDEX_ENTRIES

/-- The byte offset splitPageAndInsert seeks to for the new page written
after splitting page `p`: page `p + 1`'s offset. -/
def splitNewPageByteOffset (p : Nat) : Nat :=
  sizeofIndexCount + (p + 1) * sizeofIndexEntry * MAX_INDEX_ENTRIES

/-- The bytes saveIndexHeader writes at file offset 0: the u32
`_indexCount`, little-endian (4 bytes; no magic, no version). -/
def indexHeaderBytes (count : Nat) : List Nat := le32 count

/-- The page byte offset stated by the spec: `10 + p * P * 10` below a
10-byte index file header.  (Spec-side definition, for comparison with the
code's offsets.) -/
def specPageByteOffset (p : Nat) : Nat := 10 + p * MAX_INDEX_ENTRIES * 10

/-- The index file header stated by the spec: magic:u32, version:u16,
indexCount:u32 (10 bytes).  (Spec-side definition.) -/
def specIndexHeaderBytes (count : Nat) : List Nat :=
  le32 DB_MAGIC_NUMBER ++ le16 DB_VERSION ++ le32 count

/-- Fold a list of (key, payload) appends over a state, recording whether
every append returned success. -/
def runAppends (s : DB) (ops : List (Nat × List Nat)) : DB × Bool :=
  ops.foldl
    (fun acc op =>
      let r := append [] acc.1 op.1 1 op.2
      (r.1, acc.2 && r.2))
    (s, true)

/-- Keys `n, n-1, ..., n-cnt+1` (descending). -/
def descKeys (n cnt : Nat) : List (Nat × List Nat) :=
  (List.range cnt).map (fun i => (n - i, [(n - i) % 256]))

/-- The engine state after `open` on a fresh database followed by 257
appends with descending keys 1000, 999, ..., 744, together with the
conjunction of all the append results. -/
def c1run : DB × Bool := runAppends (openDB freshDB).1 (descKeys 1000 257)

/-- All observations the C1 counterexample needs, evaluated in one pass:
`open` succeeded, all 257 appends succeeded, indexCount is 257, yet the
logical index is not ascending: position 255 holds key 1000 and position
256 holds key 873. -/
def c1check : Bool :=
  (openDB freshDB).2 && c1run.2
    && (c1run.1.indexCount == 257)
    && (viewKey c1run.1 255 == 1000) && (viewKey c1run.1 256 == 873)
    && (!sortedIndexB c1run.1)

/-- The engine state after `open` on a fresh database followed by the
first 258 appends of the reverse-order stress (descending keys 1000, 999,
..., 743, each with payload `[key % 256]`), with the conjunction of the
append results.  (A prefix of the full 1000-append input; the first page
split happens at the 257th append and corrupts the index.) -/
def c2run : DB × Bool := runAppends (openDB freshDB).1 (descKeys 1000 258)

/-- All observations the C2 refutation needs, evaluated in one pass: every
append of the prefix returned success and indexCount is 258, yet the index
is not strictly ascending (position 255 holds key 1000, position 256 holds
key 872), and `get(872)` fails (searchIndex misses the key on the unsorted
data) even though append(872, ...) succeeded. -/
def c2check : Bool :=
  (openDB freshDB).2 && c2run.2 && (c2run.1.indexCount == 258)
    && (viewKey c2run.1 255 == 1000) && (viewKey c2run.1 256 == 872)
    && (!sortedIndexB c2run.1)
    && (dbGet c2run.1 872 16).2.isNone

/-- Element lookup out of range gives the default. -/
theorem getD_of_length_le {α : Type} (l : List α) (i : Nat) (z : α)
    (h : l.length ≤ i) : l.getD i z = z := by
  simp [List.getD_eq_getElem?_getD, List.getElem?_eq_none h]

/-- Element lookup inside a taken prefix. -/
theorem getD_take {α : Type} (l : List α) (n i : Nat) (z : α) (h : i < n) :
    (l.take n).getD i z = l.getD i z := by
  simp only [List.getD_eq_getElem?_getD]
  rw [List.getElem?_take_of_lt h]

/-- Element lookup at the set position. -/
theorem getD_set_self {α : Type} (l : List α) (i : Nat) (a z : α)
    (h : i < l.length) : (l.set i a).getD i z = a := by
  simp only [List.getD_eq_getElem?_getD]
  rw [List.getElem?_set_self h]
  rfl

/-- Element lookup away from the set position. -/
theorem getD_set_ne {α : Type} (l : List α) (i j : Nat) (a z : α)
    (h : i ≠ j) : (l.set i a).getD j z = l.getD j z := by
  simp only [List.getD_eq_getElem?_getD]
  rw [List.getElem?_set_ne h]

/-- Characterization of writeSlots lookups: slots in the written window
come from `xs`, everything else keeps its previous value (with `zeroEntry`
standing both for the zero fill of a seek gap and for reads past EOF). -/
theorem writeSlots_getD (d : List IndexEntry) (off : Nat) (xs : List IndexEntry)
    (g : Nat) (hxs : xs ≠ []) :
    (writeSlots d off xs).getD g zeroEntry =
      if g < off then d.getD g zeroEntry
      else if g < off + xs.length then xs.getD (g - off) zeroEntry
      else d.getD g zeroEntry := by
  have hxs' : xs.isEmpty = false := by
    cases xs with
    | nil => simp at hxs
    | cons a t => rfl
  have hc : ¬(xs.isEmpty = true) := by simp [hxs']
  unfold writeSlots
  rw [if_neg hc]
  have hpre : (d.take off ++ List.replicate (off - d.length) zeroEntry).length = off := by
    simp
    omega
  simp only [List.getD_eq_getElem?_getD]
  by_cases h1 : g < off
  · rw [List.getElem?_append_left (by simp [hpre]; omega),
      List.getElem?_append_left (by rw [hpre]; omega)]
    rw [if_pos h1]
    by_cases hg : g < d.length
    · rw [List.getElem?_append_left (by simp; omega),
        List.getElem?_take_of_lt h1]
    · rw [List.getElem?_append_right (by simp; omega)]
      rw [List.getElem?_replicate]
      rw [List.getElem?_eq_none (by omega)]
      rw [if_pos (by simp only [List.length_take]; omega)]
      rfl
  · by_cases h2 : g < off + xs.length
    · rw [List.getElem?_append_left (by simp [hpre]; omega),
        List.getElem?_append_right (by rw [hpre]; omega), hpre]
      rw [if_neg h1, if_pos h2]
    · rw [List.getElem?_append_right (by simp [hpre]; omega)]
      rw [List.getElem?_drop]
      rw [if_neg h1, if_neg h2]
      have : off + xs.length + (g - ((d.take off ++ List.replicate (off - d.length) zeroEntry ++ xs).length)) = g := by
        simp [hpre]
        omega
      rw [List.append_assoc] at this ⊢
      rw [this]

/-- writeSlots only grows the file. -/
theorem writeSlots_length_ge (d : List IndexEntry) (off : Nat)
    (xs : List IndexEntry) : d.length ≤ (writeSlots d off xs).length := by
  unfold writeSlots
  by_cases hxs : xs.isEmpty = true
  · rw [if_pos hxs]
  · rw [if_neg hxs]
    simp
    omega

/-- writeSlots covers the whole written window. -/
theorem writeSlots_length_covers (d : List IndexEntry) (off : Nat)
    (xs : List IndexEntry) (h : xs ≠ []) :
    off + xs.length ≤ (writeSlots d off xs).length := by
  have hxs' : xs.isEmpty = false := by
    cases xs with
    | nil => simp at h
    | cons a t => rfl
  unfold writeSlots
  rw [if_neg (by simp [hxs'])]
  simp
  omega

/-- readSlots returns the in-range disk slots. -/
theorem readSlots_getD (d : List IndexEntry) (off n j : Nat) (h1 : j < n) :
    (readSlots d off n).getD j zeroEntry = d.getD (off + j) zeroEntry := by
  unfold readSlots
  simp only [List.getD_eq_getElem?_getD]
  rw [List.getElem?_take_of_lt h1, List.getElem?_drop]

/-- Length of a readSlots result. -/
theorem readSlots_length (d : List IndexEntry) (off n : Nat) :
    (readSlots d off n).length = min n (d.length - off) := by
  unfold readSlots
  simp

/-- pageShiftInsert preserves the buffer length (shift window inside the
buffer). -/
theorem pageShiftInsert_length (pg : List IndexEntry) (sl n k o st : Nat)
    (h1 : sl ≤ n) (h2 : n < pg.length) :
    (pageShiftInsert pg sl n k o st).length = pg.length := by
  unfold pageShiftInsert
  simp only [List.length_append, List.length_take, List.length_cons,
    List.length_nil, List.length_drop]
  omega

/-- pageShiftInsert below the insertion slot: unchanged. -/
theorem pageShiftInsert_getD_lt (pg : List IndexEntry) (sl n k o st i : Nat)
    (h : i < sl) (h1 : sl < pg.length) :
    (pageShiftInsert pg sl n k o st).getD i zeroEntry = pg.getD i zeroEntry := by
  unfold pageShiftInsert
  simp only [List.getD_eq_getElem?_getD]
  rw [List.getElem?_append_left (by
        simp only [List.length_append, List.length_take, List.length_cons,
          List.length_nil, List.length_drop]
        omega),
      List.getElem?_append_left (by
        simp only [List.length_append, List.length_take, List.length_cons,
          List.length_nil]
        omega),
      List.getElem?_append_left (by
        simp only [List.length_take]
        omega),
      List.getElem?_take_of_lt h]

/-- pageShiftInsert at the insertion slot: the new entry (whose
internal_status is the stale byte of the overwritten slot). -/
theorem pageShiftInsert_getD_self (pg : List IndexEntry) (sl n k o st : Nat)
    (h1 : sl < pg.length) :
    (pageShiftInsert pg sl n k o st).getD sl zeroEntry =
      { key := k, offset := o, status := st,
        internal_status := (pg.getD sl zeroEntry).internal_status } := by
  unfold pageShiftInsert
  simp only [List.getD_eq_getElem?_getD]
  rw [List.getElem?_append_left (by
        simp only [List.length_append, List.length_take, List.length_cons,
          List.length_nil, List.length_drop]
        omega),
      List.getElem?_append_left (by
        simp only [List.length_append, List.length_take, List.length_cons,
          List.length_nil]
        omega),
      List.getElem?_append_right (by
        simp only [List.length_take]
        omega)]
  have hz : sl - (pg.take sl).length = 0 := by
    simp only [List.length_take]
    omega
  rw [hz]
  rfl

/-- pageShiftInsert inside the shifted window `(sl, n]`: the previous
occupant of the slot to the left. -/
theorem pageShiftInsert_getD_shift (pg : List IndexEntry) (sl n k o st i : Nat)
    (h1 : sl < i) (h2 : i ≤ n) (h3 : sl < pg.length) (h4 : n ≤ pg.length) :
    (pageShiftInsert pg sl n k o st).getD i zeroEntry =
      pg.getD (i - 1) zeroEntry := by
  unfold pageShiftInsert
  simp only [List.getD_eq_getElem?_getD]
  rw [List.getElem?_append_left (by
        simp only [List.length_append, List.length_take, List.length_cons,
          List.length_nil, List.length_drop]
        omega),
      List.getElem?_append_right (by
        simp only [List.length_append, List.length_take, List.length_cons,
          List.length_nil]
        omega)]
  have hl : (List.take sl pg).length = sl := by
    simp only [List.length_take]
    omega
  simp only [List.length_append, hl, List.length_cons, List.length_nil]
  rw [List.getElem?_take_of_lt (by omega), List.getElem?_drop]
  have hidx : sl + (i - (sl + (0 + 1))) = i - 1 := by omega
  rw [hidx]

/-- pageShiftInsert above the shifted window: unchanged. -/
theorem pageShiftInsert_getD_gt (pg : List IndexEntry) (sl n k o st i : Nat)
    (h1 : n < i) (h2 : sl ≤ n) (h3 : sl < pg.length) (h4 : n ≤ pg.length) :
    (pageShiftInsert pg sl n k o st).getD i zeroEntry = pg.getD i zeroEntry := by
  unfold pageShiftInsert
  simp only [List.getD_eq_getElem?_getD]
  rw [List.getElem?_append_right (by
        simp only [List.length_append, List.length_take, List.length_cons,
          List.length_nil, List.length_drop]
        omega),
      List.getElem?_drop]
  congr 1
  congr 1
  simp only [List.length_append, List.length_take, List.length_cons,
    List.length_nil, List.length_drop]
  omega

/-- The resident page spans global positions `[cur * MAX, cur * MAX + MAX)`. -/
theorem resident_bounds (cur g : Nat) (h : g / MAX_INDEX_ENTRIES = cur) :
    cur * MAX_INDEX_ENTRIES ≤ g ∧ g < cur * MAX_INDEX_ENTRIES + MAX_INDEX_ENTRIES := by
  simp only [MAX_INDEX_ENTRIES] at *
  omega

/-- A page holds at most MAX_INDEX_ENTRIES entries. -/
theorem entriesInPageOf_le (c f : Nat) : entriesInPageOf c f ≤ MAX_INDEX_ENTRIES := by
  unfold entriesInPageOf
  split
  · exact Nat.min_le_left _ _
  · exact Nat.zero_le _

/-- A position of the index inside a page lies below the page's entry
count. -/
theorem lt_entriesInPageOf (c f g : Nat) (h1 : f ≤ g) (h2 : g < c)
    (h3 : g < f + MAX_INDEX_ENTRIES) : g - f < entriesInPageOf c f := by
  unfold entriesInPageOf
  simp only [MAX_INDEX_ENTRIES] at *
  split
  · omega
  · omega

/-- Positions counted by a page's entry count lie within the index. -/
theorem entriesInPageOf_lt (c f j : Nat) (h : j < entriesInPageOf c f) :
    f + j < c ∧ j < MAX_INDEX_ENTRIES := by
  unfold entriesInPageOf at h
  simp only [MAX_INDEX_ENTRIES] at *
  split at h
  · omega
  · omega

/-- The facade-observable index data `s` and `s'` agree on: the logical
entries, the entry count, and the log file. -/
def IndexPreserved (s s' : DB) : Prop :=
  s'.indexCount = s.indexCount ∧ s'.log = s.log ∧ s'.logExists = s.logExists ∧
  ∀ g, g < s.indexCount → viewEnt s' g = viewEnt s g

/-- Writing nothing changes nothing. -/
theorem writeSlots_nil (d : List IndexEntry) (off : Nat) :
    writeSlots d off [] = d := by
  unfold writeSlots
  rfl

/-- viewEnt on a resident position reads the buffer. -/
theorem viewEnt_resident (s : DB) (g : Nat) (h : resident s g) :
    viewEnt s g = s.page.getD (g % MAX_INDEX_ENTRIES) zeroEntry := by
  unfold viewEnt
  rw [if_pos h]

/-- viewEnt on a non-resident position reads the disk image. -/
theorem viewEnt_not_resident (s : DB) (g : Nat) (h : ¬resident s g) :
    viewEnt s g = s.idxDisk.getD g zeroEntry := by
  unfold viewEnt
  rw [if_neg h]

/-- A non-resident position of a loaded page lies outside the page's
global range. -/
theorem not_resident_range (s : DB) (g : Nat) (h : ¬resident s g)
    (hl : s.pageLoaded = true) :
    g < s.currentPageNumber * MAX_INDEX_ENTRIES ∨
      s.currentPageNumber * MAX_INDEX_ENTRIES + MAX_INDEX_ENTRIES ≤ g := by
  unfold resident at h
  rw [hl] at h
  simp only [true_and] at h
  simp only [MAX_INDEX_ENTRIES] at *
  omega

/-- A position inside the resident page's global range is resident. -/
theorem resident_of_range (s : DB) (g : Nat) (hl : s.pageLoaded = true)
    (h1 : s.currentPageNumber * MAX_INDEX_ENTRIES ≤ g)
    (h2 : g < s.currentPageNumber * MAX_INDEX_ENTRIES + MAX_INDEX_ENTRIES) :
    resident s g := by
  refine ⟨hl, ?_⟩
  simp only [MAX_INDEX_ENTRIES] at *
  omega

/-- saveIndexHeader on an existing index file only rewrites the header. -/
theorem saveIndexHeader_of_exists (s : DB) (h : s.idxExists = true) :
    saveIndexHeader s = ({ s with idxHeaderCount := s.indexCount }, true) := by
  unfold saveIndexHeader
  rw [if_pos h]

/-- flushIndexPage on a well-formed state: succeeds, preserves the logical
index, the log, and all page-cache scalars except the dirty flag, leaves
the whole logical index backed by the on-disk image, and keeps the state
well-formed. -/
theorem flushIndexPage_spec (s : DB) (h : EngineInv s) :
    ∃ s', flushIndexPage s = (s', true) ∧ EngineInv s' ∧ IndexPreserved s s' ∧
      s'.pageDirty = false ∧ s'.page = s.page ∧ s'.pageLoaded = s.pageLoaded ∧
      s'.currentPageNumber = s.currentPageNumber ∧ s'.idxExists = true ∧
      s'.indexCount = s.indexCount ∧
      (∀ g, g < s.indexCount → g < s'.idxDisk.length) := by
  obtain ⟨hex, hpl, hdl, hcov, hclean⟩ := h
  by_cases hd : s.pageDirty = false
  · refine ⟨s, ?_, ⟨hex, hpl, hdl, hcov, hclean⟩,
      ⟨rfl, rfl, rfl, fun g _ => rfl⟩, hd, rfl, rfl, rfl, hex, rfl, ?_⟩
    · unfold flushIndexPage
      rw [if_pos hd]
    · intro g hg
      by_cases hr : resident s g
      · obtain ⟨hload, hpg⟩ := hr
        have hb := resident_bounds _ _ hpg
        have hj : g - s.currentPageNumber * MAX_INDEX_ENTRIES <
            entriesInPageOf s.indexCount (s.currentPageNumber * MAX_INDEX_ENTRIES) :=
          lt_entriesInPageOf _ _ _ hb.1 hg (by omega)
        have hc := (hclean hd hload _ hj).1
        omega
      · exact hcov g hg hr
  · have hdt : s.pageDirty = true := by
      revert hd
      cases s.pageDirty <;> simp
    have hload : s.pageLoaded = true := hdl hdt
    have hexne : ¬(s.idxExists = false) := by rw [hex]; simp
    set first := s.currentPageNumber * MAX_INDEX_ENTRIES with hfirst
    set n := entriesInPageOf s.indexCount first with hn
    set xs := s.page.take n with hxs
    have hnMAX : n ≤ MAX_INDEX_ENTRIES := entriesInPageOf_le _ _
    have hxslen : xs.length = n := by
      rw [hxs, List.length_take, hpl]
      omega
    have hxsne : n ≠ 0 → xs ≠ [] := by
      intro hz hc
      rw [hc] at hxslen
      simp at hxslen
      omega
    have hcovlen : ∀ g, g < s.indexCount →
        g < (writeSlots s.idxDisk first xs).length := by
      intro g hg
      by_cases hr : resident s g
      · obtain ⟨_, hpg⟩ := hr
        have hb := resident_bounds _ _ hpg
        have hj : g - first < n := lt_entriesInPageOf _ _ _ hb.1 hg (by omega)
        have hc2 := writeSlots_length_covers s.idxDisk first xs (hxsne (by omega))
        omega
      · have hge := writeSlots_length_ge s.idxDisk first xs
        have := hcov g hg hr
        omega
    have hdiskeq : ∀ g, g < s.indexCount → ¬resident s g →
        (writeSlots s.idxDisk first xs).getD g zeroEntry =
          s.idxDisk.getD g zeroEntry := by
      intro g hg hr
      by_cases hz : n = 0
      · have hxe : xs = [] := by
          rw [hxs, hz]
          simp
        rw [hxe, writeSlots_nil]
      · have hne := hxsne hz
        rcases not_resident_range s g hr hload with hlo | hhi
        · rw [writeSlots_getD _ _ _ _ hne, if_pos (by omega)]
        · rw [writeSlots_getD _ _ _ _ hne, if_neg (by omega), if_neg (by omega)]
    refine ⟨{ s with
        idxDisk := writeSlots s.idxDisk first xs
        idxHeaderCount := s.indexCount
        pageDirty := false },
      ?_, ?_, ?_, rfl, rfl, rfl, rfl, hex, rfl, hcovlen⟩
    · unfold flushIndexPage
      rw [if_neg hd, if_neg hexne]
      show ({ (saveIndexHeader { s with
          idxDisk := writeSlots s.idxDisk first xs }).1 with
            pageDirty := false }, true) = _
      rw [saveIndexHeader_of_exists _ (show ({ s with
          idxDisk := writeSlots s.idxDisk first xs } : DB).idxExists = true
          from hex)]
    · refine ⟨hex, hpl, ?_, ?_, ?_⟩
      · intro hcontra
        simp at hcontra
      · intro g hg _
        exact hcovlen g hg
      · intro _ _ j hj
        have hj2 : j < n := hj
        have hlt := entriesInPageOf_lt s.indexCount first j hj2
        have hne := hxsne (by omega)
        constructor
        · show first + j < (writeSlots s.idxDisk first xs).length
          exact hcovlen _ hlt.1
        · show (writeSlots s.idxDisk first xs).getD (first + j) zeroEntry =
            s.page.getD j zeroEntry
          have hc2 := writeSlots_length_covers s.idxDisk first xs hne
          rw [writeSlots_getD _ _ _ _ hne, if_neg (by omega), if_pos (by omega)]
          have hjj : first + j - first = j := by omega
          rw [hjj, hxs, getD_take _ _ _ _ (by omega)]
    · refine ⟨rfl, rfl, rfl, ?_⟩
      intro g hg
      by_cases hr : resident s g
      · rw [viewEnt_resident _ _ (show resident { s with
            idxDisk := writeSlots s.idxDisk first xs
            idxHeaderCount := s.indexCount
            pageDirty := false } g from ⟨hr.1, hr.2⟩),
          viewEnt_resident _ _ hr]
      · rw [viewEnt_not_resident _ _ (show ¬resident { s with
            idxDisk := writeSlots s.idxDisk first xs
            idxHeaderCount := s.indexCount
            pageDirty := false } g from fun hr2 => hr ⟨hr2.1, hr2.2⟩),
          viewEnt_not_resident _ _ hr]
        show (writeSlots s.idxDisk first xs).getD g zeroEntry = _
        exact hdiskeq g hg hr

/-- Slot arithmetic for a position of the resident page. -/
theorem mod_eq_sub (cur g : Nat) (h : g / MAX_INDEX_ENTRIES = cur) :
    g % MAX_INDEX_ENTRIES = g - cur * MAX_INDEX_ENTRIES := by
  simp only [MAX_INDEX_ENTRIES] at *
  omega

/-- On a clean well-formed state the logical index coincides with the
on-disk image. -/
theorem viewEnt_eq_disk (s : DB) (h : EngineInv s) (hcl : s.pageDirty = false)
    (g : Nat) (hg : g < s.indexCount) :
    viewEnt s g = s.idxDisk.getD g zeroEntry := by
  obtain ⟨hex, hpl, hdl, hcov, hclean⟩ := h
  by_cases hr : resident s g
  · obtain ⟨hload, hpg⟩ := hr
    rw [viewEnt_resident _ _ ⟨hload, hpg⟩]
    have hb := resident_bounds _ _ hpg
    have hj : g - s.currentPageNumber * MAX_INDEX_ENTRIES <
        entriesInPageOf s.indexCount (s.currentPageNumber * MAX_INDEX_ENTRIES) :=
      lt_entriesInPageOf _ _ _ hb.1 hg (by omega)
    have hcl2 := (hclean hcl hload _ hj).2
    rw [mod_eq_sub _ _ hpg]
    rw [← hcl2]
    congr 1
    omega
  · rw [viewEnt_not_resident _ _ hr]

/-- loadIndexPage on a well-formed state: always succeeds, preserves the
logical index and the log, makes page `p` resident and clean, and fills
the first `entriesInPageOf` slots of the buffer from the disk image. -/
theorem loadIndexPage_spec (s : DB) (p : Nat) (h : EngineInv s) :
    ∃ s', loadIndexPage s p = (s', true) ∧ EngineInv s' ∧ IndexPreserved s s' ∧
      s'.pageLoaded = true ∧ s'.currentPageNumber = p ∧ s'.pageDirty = false ∧
      s'.idxExists = true ∧ s'.indexCount = s.indexCount ∧
      s'.page.length = MAX_INDEX_ENTRIES ∧
      (∀ g, g < s.indexCount → g < s'.idxDisk.length) ∧
      (∀ g, g < s.indexCount → viewEnt s' g = s'.idxDisk.getD g zeroEntry) := by
  obtain ⟨s1, heq1, hinv1, hpres1, hdirty1, hpage1, hloaded1, hcur1, hex1,
    hcount1, hcov1⟩ := flushIndexPage_spec s h
  obtain ⟨hex1b, hpl1, hdl1, hcovb1, hclean1⟩ := hinv1
  have hexne1 : ¬(s1.idxExists = false) := by rw [hex1]; simp
  set first := p * MAX_INDEX_ENTRIES with hfirst
  set expected := entriesInPageOf s1.indexCount first with hexpected
  set fresh := readSlots s1.idxDisk first expected with hfresh
  have hexpMAX : expected ≤ MAX_INDEX_ENTRIES := entriesInPageOf_le _ _
  have hfreshlen : fresh.length = expected := by
    rw [hfresh, readSlots_length]
    by_cases hz : expected = 0
    · rw [hz]
      simp
    · have hin := entriesInPageOf_lt s1.indexCount first (expected - 1)
        (by omega)
      have := hcov1 (first + (expected - 1)) (by rw [← hcount1]; omega)
      omega
  set page1 := fresh ++ List.replicate (expected - fresh.length) zeroEntry
    ++ s1.page.drop expected with hpage10
  have hp1len : page1.length = MAX_INDEX_ENTRIES := by
    rw [hpage10]
    have hpl0 : s.page.length = MAX_INDEX_ENTRIES := h.2.1
    simp only [List.length_append, List.length_replicate, List.length_drop,
      hfreshlen, hpage1, hpl0]
    omega
  have hp1get : ∀ j, j < expected →
      page1.getD j zeroEntry = s1.idxDisk.getD (first + j) zeroEntry := by
    intro j hj
    rw [hpage10]
    have : (fresh ++ List.replicate (expected - fresh.length) zeroEntry
        ++ s1.page.drop expected).getD j zeroEntry = fresh.getD j zeroEntry := by
      simp only [List.getD_eq_getElem?_getD]
      rw [List.getElem?_append_left (by
            simp only [List.length_append, hfreshlen, List.length_replicate]
            omega),
        List.getElem?_append_left (by rw [hfreshlen]; omega)]
    rw [this, hfresh, readSlots_getD _ _ _ _ hj]
  refine ⟨{ s1 with
      page := page1
      currentPageNumber := p
      pageLoaded := true
      pageDirty := false },
    ?_, ?_, ?_, rfl, rfl, rfl, hex1, hcount1, hp1len, hcov1, ?_⟩
  · unfold loadIndexPage
    rw [heq1]
    dsimp only
    rw [if_neg hexne1]
  · refine ⟨hex1, hp1len, ?_, ?_, ?_⟩
    · intro hcontra
      simp at hcontra
    · intro g hg _
      have hg0 : g < s1.indexCount := hg
      rw [hcount1] at hg0
      exact hcov1 g hg0
    · intro _ _ j hj
      have hj2 : j < expected := hj
      have hlt := entriesInPageOf_lt s1.indexCount first j hj2
      constructor
      · exact hcov1 _ (by rw [← hcount1]; exact hlt.1)
      · show s1.idxDisk.getD (first + j) zeroEntry = page1.getD j zeroEntry
        rw [hp1get j hj2]
  · refine ⟨hcount1, hpres1.2.1, hpres1.2.2.1, ?_⟩
    intro g hg
    have hview1 : viewEnt s1 g = s1.idxDisk.getD g zeroEntry :=
      viewEnt_eq_disk s1 ⟨hex1b, hpl1, hdl1, hcovb1, hclean1⟩ hdirty1 g
        (by rw [hcount1]; exact hg)
    have hg1 : g < s1.indexCount := by rw [hcount1]; exact hg
    by_cases hr2 : g / MAX_INDEX_ENTRIES = p
    · have hb := resident_bounds p g hr2
      have hj : g - first < expected :=
        lt_entriesInPageOf _ _ _ hb.1 hg1 (by omega)
      rw [viewEnt_resident _ _ ⟨rfl, hr2⟩]
      show page1.getD (g % MAX_INDEX_ENTRIES) zeroEntry = _
      rw [mod_eq_sub _ _ hr2]
      show page1.getD (g - first) zeroEntry = _
      rw [hp1get _ hj]
      have hgg : first + (g - first) = g := by omega
      rw [hgg, ← hview1]
      exact hpres1.2.2.2 g hg
    · rw [viewEnt_not_resident _ _ (by
        intro hr3
        exact hr2 hr3.2)]
      show s1.idxDisk.getD g zeroEntry = _
      rw [← hview1, hpres1.2.2.2 g hg]
  · intro g hg
    have hg1 : g < s1.indexCount := by rw [hcount1]; exact hg
    by_cases hr2 : g / MAX_INDEX_ENTRIES = p
    · have hb := resident_bounds p g hr2
      have hj : g - first < expected :=
        lt_entriesInPageOf _ _ _ hb.1 hg1 (by omega)
      rw [viewEnt_resident _ _ ⟨rfl, hr2⟩]
      show page1.getD (g % MAX_INDEX_ENTRIES) zeroEntry = _
      rw [mod_eq_sub _ _ hr2]
      show page1.getD (g - first) zeroEntry = s1.idxDisk.getD g zeroEntry
      rw [hp1get _ hj]
      congr 1
      omega
    · rw [viewEnt_not_resident _ _ (by
        intro hr3
        exact hr2 hr3.2)]

/-- getIndexEntry on a well-formed state: always succeeds (no bounds check
against indexCount exists), returns the resident-buffer slot
`g % MAX_INDEX_ENTRIES` after any demand load, preserves the logical
index, and for in-range positions returns the logical entry. -/
theorem getIndexEntry_spec (s : DB) (g : Nat) (h : EngineInv s) :
    ∃ s' e, getIndexEntry s g = (s', some e) ∧ EngineInv s' ∧
      IndexPreserved s s' ∧
      e = s'.page.getD (g % MAX_INDEX_ENTRIES) zeroEntry ∧
      s'.pageLoaded = true ∧ s'.currentPageNumber = g / MAX_INDEX_ENTRIES ∧
      (g < s.indexCount → e = viewEnt s g) := by
  by_cases hc : s.pageLoaded = false ∨ s.currentPageNumber ≠ g / MAX_INDEX_ENTRIES
  · obtain ⟨s1, heq1, hinv1, hpres1, hloaded1, hcur1, hdirty1, hex1, hcount1,
      hplen1, hcov1, hvd1⟩ := loadIndexPage_spec s (g / MAX_INDEX_ENTRIES) h
    refine ⟨s1, s1.page.getD (g % MAX_INDEX_ENTRIES) zeroEntry, ?_, hinv1,
      hpres1, rfl, hloaded1, hcur1, ?_⟩
    · unfold getIndexEntry
      rw [if_pos hc, heq1]
    · intro hg
      rw [← hpres1.2.2.2 g hg]
      rw [viewEnt_resident s1 g ⟨hloaded1, by rw [hcur1]⟩]
  · push_neg at hc
    obtain ⟨hl, hp⟩ := hc
    have hl2 : s.pageLoaded = true := by
      revert hl
      cases s.pageLoaded <;> simp
    refine ⟨s, s.page.getD (g % MAX_INDEX_ENTRIES) zeroEntry, ?_, h,
      ⟨rfl, rfl, rfl, fun _ _ => rfl⟩, rfl, hl2, hp, ?_⟩
    · unfold getIndexEntry
      rw [if_neg (by
        push_neg
        exact ⟨hl, hp⟩)]
    · intro hg
      rw [viewEnt_resident s g ⟨hl2, hp.symm⟩]

/-- setIndexEntry on a well-formed state with an in-range position:
succeeds, overwrites exactly the logical entry at `g`, marks the page
dirty, and preserves everything else. -/
theorem setIndexEntry_spec (s : DB) (g : Nat) (e : IndexEntry)
    (h : EngineInv s) (_hg : g < s.indexCount) :
    ∃ s', setIndexEntry s g e = (s', true) ∧ EngineInv s' ∧
      s'.indexCount = s.indexCount ∧ s'.log = s.log ∧
      s'.logExists = s.logExists ∧ viewEnt s' g = e ∧
      (∀ g2, g2 < s.indexCount → g2 ≠ g → viewEnt s' g2 = viewEnt s g2) ∧
      s'.pageDirty = true := by
  have hmod : g % MAX_INDEX_ENTRIES < MAX_INDEX_ENTRIES := by
    simp only [MAX_INDEX_ENTRIES]
    omega
  by_cases hc : s.pageLoaded = false ∨ s.currentPageNumber ≠ g / MAX_INDEX_ENTRIES
  · obtain ⟨s1, heq1, hinv1, hpres1, hloaded1, hcur1, hdirty1, hex1, hcount1,
      hplen1, hcov1, hvd1⟩ := loadIndexPage_spec s (g / MAX_INDEX_ENTRIES) h
    obtain ⟨hex1b, hpl1, hdl1, hcovb1, hclean1⟩ := hinv1
    set s2 : DB := { s1 with
      page := s1.page.set (g % MAX_INDEX_ENTRIES) e
      pageDirty := true } with hs2
    have hres : ∀ g2, g2 / MAX_INDEX_ENTRIES = g / MAX_INDEX_ENTRIES →
        resident s2 g2 := by
      intro g2 hq
      refine ⟨hloaded1, ?_⟩
      show g2 / MAX_INDEX_ENTRIES = s1.currentPageNumber
      rw [hcur1]
      exact hq
    have hnres : ∀ g2, g2 / MAX_INDEX_ENTRIES ≠ g / MAX_INDEX_ENTRIES →
        ¬resident s2 g2 := by
      intro g2 hq hr3
      refine hq ?_
      have := hr3.2
      show g2 / MAX_INDEX_ENTRIES = g / MAX_INDEX_ENTRIES
      rw [← hcur1]
      exact this
    refine ⟨s2, ?_, ?_, hcount1, hpres1.2.1, hpres1.2.2.1, ?_, ?_, rfl⟩
    · unfold setIndexEntry
      rw [if_pos hc, heq1]
    · refine ⟨hex1b, by simp [hs2, hpl1], ?_, ?_, ?_⟩
      · intro _
        exact hloaded1
      · intro g2 hg2 hr2
        have hg2b : g2 < s1.indexCount := hg2
        refine hcovb1 g2 hg2b ?_
        intro hr3
        exact hr2 ⟨hr3.1, hr3.2⟩
      · intro hcontra
        simp [hs2] at hcontra
    · rw [viewEnt_resident _ _ (hres g rfl)]
      show (s1.page.set (g % MAX_INDEX_ENTRIES) e).getD
        (g % MAX_INDEX_ENTRIES) zeroEntry = e
      rw [getD_set_self _ _ _ _ (by rw [hpl1]; exact hmod)]
    · intro g2 hg2 hne
      refine Eq.trans ?_ (hpres1.2.2.2 g2 hg2)
      by_cases hr2 : g2 / MAX_INDEX_ENTRIES = g / MAX_INDEX_ENTRIES
      · rw [viewEnt_resident _ _ (hres g2 hr2),
          viewEnt_resident s1 g2 ⟨hloaded1, by rw [hcur1]; exact hr2⟩]
        show (s1.page.set (g % MAX_INDEX_ENTRIES) e).getD
          (g2 % MAX_INDEX_ENTRIES) zeroEntry = _
        rw [getD_set_ne _ _ _ _ _ (by
          intro hmm
          apply hne
          simp only [MAX_INDEX_ENTRIES] at *
          omega)]
      · rw [viewEnt_not_resident _ _ (hnres g2 hr2),
          viewEnt_not_resident s1 g2 (by
            intro hr3
            refine hr2 ?_
            rw [← hcur1]
            exact hr3.2)]
  · push_neg at hc
    obtain ⟨hl, hp⟩ := hc
    have hl2 : s.pageLoaded = true := by
      revert hl
      cases s.pageLoaded <;> simp
    obtain ⟨hex, hpl, hdl, hcov, hclean⟩ := h
    set s2 : DB := { s with
      page := s.page.set (g % MAX_INDEX_ENTRIES) e
      pageDirty := true } with hs2
    have hres : ∀ g2, g2 / MAX_INDEX_ENTRIES = g / MAX_INDEX_ENTRIES →
        resident s2 g2 := by
      intro g2 hq
      refine ⟨hl2, ?_⟩
      show g2 / MAX_INDEX_ENTRIES = s.currentPageNumber
      rw [hp]
      exact hq
    have hnres : ∀ g2, g2 / MAX_INDEX_ENTRIES ≠ g / MAX_INDEX_ENTRIES →
        ¬resident s2 g2 := by
      intro g2 hq hr3
      refine hq ?_
      have := hr3.2
      show g2 / MAX_INDEX_ENTRIES = g / MAX_INDEX_ENTRIES
      rw [← hp]
      exact this
    refine ⟨s2, ?_, ?_, rfl, rfl, rfl, ?_, ?_, rfl⟩
    · unfold setIndexEntry
      rw [if_neg (by
        push_neg
        exact ⟨hl, hp⟩)]
    · refine ⟨hex, by simp [hs2, hpl], ?_, ?_, ?_⟩
      · intro _
        exact hl2
      · intro g2 hg2 hr2
        refine hcov g2 hg2 ?_
        intro hr3
        exact hr2 ⟨hr3.1, hr3.2⟩
      · intro hcontra
        simp [hs2] at hcontra
    · rw [viewEnt_resident _ _ (hres g rfl)]
      show (s.page.set (g % MAX_INDEX_ENTRIES) e).getD
        (g % MAX_INDEX_ENTRIES) zeroEntry = e
      rw [getD_set_self _ _ _ _ (by rw [hpl]; exact hmod)]
    · intro g2 hg2 hne
      by_cases hr2 : g2 / MAX_INDEX_ENTRIES = g / MAX_INDEX_ENTRIES
      · rw [viewEnt_resident _ _ (hres g2 hr2),
          viewEnt_resident s g2 ⟨hl2, by rw [hp]; exact hr2⟩]
        show (s.page.set (g % MAX_INDEX_ENTRIES) e).getD
          (g2 % MAX_INDEX_ENTRIES) zeroEntry = _
        rw [getD_set_ne _ _ _ _ _ (by
          intro hmm
          apply hne
          simp only [MAX_INDEX_ENTRIES] at *
          omega)]
      · rw [viewEnt_not_resident _ _ (hnres g2 hr2),
          viewEnt_not_resident s g2 (by
            intro hr3
            refine hr2 ?_
            rw [← hp]
            exact hr3.2)]

/-- IndexPreserved is reflexive. -/
theorem IndexPreserved_refl (s : DB) : IndexPreserved s s :=
  ⟨rfl, rfl, rfl, fun _ _ => rfl⟩

/-- IndexPreserved is transitive. -/
theorem IndexPreserved_trans (s s1 s2 : DB) (h1 : IndexPreserved s s1)
    (h2 : IndexPreserved s1 s2) : IndexPreserved s s2 := by
  refine ⟨h2.1.trans h1.1, h2.2.1.trans h1.2.1, h2.2.2.1.trans h1.2.2.1, ?_⟩
  intro g hg
  rw [h2.2.2.2 g (by rw [h1.1]; exact hg)]
  exact h1.2.2.2 g hg

/-- Logical keys agree between index-preserving states. -/
theorem viewKey_preserved (s s' : DB) (h : IndexPreserved s s') (g : Nat)
    (hg : g < s.indexCount) : viewKey s' g = viewKey s g := by
  unfold viewKey
  rw [h.2.2.2 g hg]

/-- Sortedness carries over index-preserving states. -/
theorem sorted_preserved (s s' : DB) (hs : SortedIndex s)
    (hp : IndexPreserved s s') : SortedIndex s' := by
  intro j hj i hij
  have hj2 : j < s.indexCount := by rw [← hp.1]; exact hj
  rw [viewKey_preserved s s' hp j hj2,
    viewKey_preserved s s' hp i (by omega)]
  exact hs j hj2 i hij

/-- The binary-search loop of insertIndexEntry computes the lower bound:
given that positions below `low` hold keys `< key` and positions from
`high` on hold keys `≥ key`, it succeeds and returns the partition point
of the sorted index. -/
theorem lowerBoundLoop_spec :
    ∀ (fuel : Nat) (s : DB) (key low high : Nat), EngineInv s →
    SortedIndex s → high ≤ s.indexCount → high - low < fuel → low ≤ high →
    (∀ i, i < low → viewKey s i < key) →
    (∀ i, high ≤ i → i < s.indexCount → key ≤ viewKey s i) →
    ∃ s' pos, lowerBoundLoop s key low high fuel = (s', some pos) ∧
      EngineInv s' ∧ IndexPreserved s s' ∧ low ≤ pos ∧ pos ≤ high ∧
      (∀ i, i < pos → viewKey s i < key) ∧
      (∀ i, pos ≤ i → i < s.indexCount → key ≤ viewKey s i) := by
  intro fuel
  induction fuel with
  | zero =>
    intro s key low high _ _ _ hfuel _ _ _
    omega
  | succ m ih =>
    intro s key low high hinv hsort hhigh hfuel hlh hlow hup
    by_cases hlt : low < high
    · have hmid : (low + high) / 2 < s.indexCount := by omega
      obtain ⟨s1, e, heq, hinv1, hpres1, _, _, _, hval⟩ :=
        getIndexEntry_spec s ((low + high) / 2) hinv
      have he : e = viewEnt s ((low + high) / 2) := hval hmid
      have hsort1 : SortedIndex s1 := sorted_preserved s s1 hsort hpres1
      have hcount1 : s1.indexCount = s.indexCount := hpres1.1
      show ∃ s' pos,
        (if low < high then
          match getIndexEntry s ((low + high) / 2) with
          | (s1, none) => (s1, none)
          | (s1, some e) =>
            if e.key < key then lowerBoundLoop s1 key ((low + high) / 2 + 1) high m
            else lowerBoundLoop s1 key low ((low + high) / 2) m
         else (s, some low)) = (s', some pos) ∧ _
      rw [if_pos hlt, heq]
      dsimp only
      by_cases hek : e.key < key
      · rw [if_pos hek]
        have hlow1 : ∀ i, i < (low + high) / 2 + 1 → viewKey s1 i < key := by
          intro i hi
          rw [viewKey_preserved s s1 hpres1 i (by omega)]
          by_cases hil : i < low
          · exact hlow i hil
          · have : viewKey s i ≤ viewKey s ((low + high) / 2) := by
              by_cases hi2 : i = (low + high) / 2
              · rw [hi2]
              · have := hsort ((low + high) / 2) hmid i (by omega)
                omega
            have : viewKey s ((low + high) / 2) = e.key := by rw [he]; rfl
            unfold viewKey at *
            rw [he] at hek
            omega
        have hup1 : ∀ i, high ≤ i → i < s1.indexCount → key ≤ viewKey s1 i := by
          intro i hi1 hi2
          rw [hcount1] at hi2
          rw [viewKey_preserved s s1 hpres1 i hi2]
          exact hup i hi1 hi2
        obtain ⟨s2, pos, heq2, hinv2, hpres2, hp1, hp2, hp3, hp4⟩ :=
          ih s1 key ((low + high) / 2 + 1) high hinv1 hsort1
            (by rw [hcount1]; exact hhigh) (by omega) (by omega) hlow1 hup1
        refine ⟨s2, pos, heq2, hinv2,
          IndexPreserved_trans s s1 s2 hpres1 hpres2, by omega, hp2, ?_, ?_⟩
        · intro i hi
          rw [← viewKey_preserved s s1 hpres1 i (by omega)]
          exact hp3 i hi
        · intro i hi1 hi2
          rw [← viewKey_preserved s s1 hpres1 i hi2]
          exact hp4 i hi1 (by rw [hcount1]; exact hi2)
      · rw [if_neg hek]
        have hek2 : key ≤ e.key := by omega
        have hlow1 : ∀ i, i < low → viewKey s1 i < key := by
          intro i hi
          rw [viewKey_preserved s s1 hpres1 i (by omega)]
          exact hlow i hi
        have hup1 : ∀ i, (low + high) / 2 ≤ i → i < s1.indexCount →
            key ≤ viewKey s1 i := by
          intro i hi1 hi2
          rw [hcount1] at hi2
          rw [viewKey_preserved s s1 hpres1 i hi2]
          have hm : key ≤ viewKey s ((low + high) / 2) := by
            rw [he] at hek2
            exact hek2
          by_cases hi3 : i = (low + high) / 2
          · rw [hi3]
            exact hm
          · have := hsort i hi2 ((low + high) / 2) (by omega)
            omega
        obtain ⟨s2, pos, heq2, hinv2, hpres2, hp1, hp2, hp3, hp4⟩ :=
          ih s1 key low ((low + high) / 2) hinv1 hsort1
            (by rw [hcount1]; omega) (by omega) (by omega) hlow1 hup1
        refine ⟨s2, pos, heq2, hinv2,
          IndexPreserved_trans s s1 s2 hpres1 hpres2, hp1, by omega, ?_, ?_⟩
        · intro i hi
          rw [← viewKey_preserved s s1 hpres1 i (by omega)]
          exact hp3 i hi
        · intro i hi1 hi2
          rw [← viewKey_preserved s s1 hpres1 i hi2]
          exact hp4 i hi1 (by rw [hcount1]; exact hi2)
    · refine ⟨s, low, ?_, hinv, IndexPreserved_refl s, le_refl low, by omega,
        hlow, ?_⟩
      · show (if low < high then _ else (s, some low)) = (s, some low)
        rw [if_neg hlt]
      · intro i hi1 hi2
        exact hup i (by omega) hi2

/-- The binary-search loop of searchIndex: under sortedness, finds an
exact match inside the window `[low, high)` whenever one exists in the
index, and reports not-found only when the key is nowhere. -/
theorem searchLoop_spec :
    ∀ (fuel : Nat) (s : DB) (key low high : Nat), EngineInv s →
    SortedIndex s → high ≤ s.indexCount → high - low < fuel →
    (∀ i, i < s.indexCount → viewKey s i = key → low ≤ i ∧ i < high) →
    ∃ s' r, searchLoop s key low high fuel = (s', some r) ∧ EngineInv s' ∧
      IndexPreserved s s' ∧
      (∀ idx, r = some idx → idx < s.indexCount ∧ viewKey s idx = key) ∧
      (r = none → ∀ i, i < s.indexCount → viewKey s i ≠ key) := by
  intro fuel
  induction fuel with
  | zero =>
    intro s key low high _ _ _ hfuel _
    omega
  | succ m ih =>
    intro s key low high hinv hsort hhigh hfuel hwin
    by_cases hlt : low < high
    · have hmid : (low + high) / 2 < s.indexCount := by omega
      obtain ⟨s1, e, heq, hinv1, hpres1, _, _, _, hval⟩ :=
        getIndexEntry_spec s ((low + high) / 2) hinv
      have he : e = viewEnt s ((low + high) / 2) := hval hmid
      have hek : e.key = viewKey s ((low + high) / 2) := by
        rw [he]
        rfl
      have hsort1 : SortedIndex s1 := sorted_preserved s s1 hsort hpres1
      have hcount1 : s1.indexCount = s.indexCount := hpres1.1
      show ∃ s' r,
        (if low < high then
          match getIndexEntry s ((low + high) / 2) with
          | (s1, none) => (s1, none)
          | (s1, some e) =>
            if e.key == key then (s1, some (some ((low + high) / 2)))
            else if e.key < key then searchLoop s1 key ((low + high) / 2 + 1) high m
            else searchLoop s1 key low ((low + high) / 2) m
         else (s, some none)) = (s', some r) ∧ _
      rw [if_pos hlt, heq]
      dsimp only
      by_cases hbeq : (e.key == key) = true
      · rw [if_pos hbeq]
        have hkeq : e.key = key := by simpa using hbeq
        refine ⟨s1, some ((low + high) / 2), rfl, hinv1, hpres1, ?_, ?_⟩
        · intro idx hidx
          have : idx = (low + high) / 2 := by
            injection hidx with hh
            exact hh.symm
          rw [this]
          exact ⟨hmid, by rw [← hek]; exact hkeq⟩
        · intro hcontra
          simp at hcontra
      · rw [if_neg hbeq]
        have hkne : e.key ≠ key := by
          intro hcontra
          rw [hcontra] at hbeq
          simp at hbeq
        by_cases hlt2 : e.key < key
        · rw [if_pos hlt2]
          have hwin1 : ∀ i, i < s1.indexCount → viewKey s1 i = key →
              (low + high) / 2 + 1 ≤ i ∧ i < high := by
            intro i hi hkey
            rw [hcount1] at hi
            rw [viewKey_preserved s s1 hpres1 i hi] at hkey
            have horig := hwin i hi hkey
            have hgt : (low + high) / 2 < i := by
              by_contra hle
              push_neg at hle
              by_cases hieq : i = (low + high) / 2
              · rw [hieq] at hkey
                rw [← hek] at hkey
                exact hkne hkey
              · have := hsort ((low + high) / 2) hmid i (by omega)
                rw [hkey, ← hek] at this
                omega
            exact ⟨by omega, horig.2⟩
          obtain ⟨s2, r, heq2, hinv2, hpres2, hfound, hnone⟩ :=
            ih s1 key ((low + high) / 2 + 1) high hinv1 hsort1
              (by rw [hcount1]; exact hhigh) (by omega) hwin1
          refine ⟨s2, r, heq2, hinv2,
            IndexPreserved_trans s s1 s2 hpres1 hpres2, ?_, ?_⟩
          · intro idx hidx
            obtain ⟨hi1, hi2⟩ := hfound idx hidx
            rw [hcount1] at hi1
            rw [viewKey_preserved s s1 hpres1 idx hi1] at hi2
            exact ⟨hi1, hi2⟩
          · intro hr i hi hkey
            refine hnone hr i (by rw [hcount1]; exact hi) ?_
            rw [viewKey_preserved s s1 hpres1 i hi]
            exact hkey
        · rw [if_neg hlt2]
          have hwin1 : ∀ i, i < s1.indexCount → viewKey s1 i = key →
              low ≤ i ∧ i < (low + high) / 2 := by
            intro i hi hkey
            rw [hcount1] at hi
            rw [viewKey_preserved s s1 hpres1 i hi] at hkey
            have horig := hwin i hi hkey
            have hlt3 : i < (low + high) / 2 := by
              by_contra hle
              push_neg at hle
              by_cases hieq : i = (low + high) / 2
              · rw [hieq] at hkey
                rw [← hek] at hkey
                exact hkne hkey
              · have := hsort i hi ((low + high) / 2) (by omega)
                rw [hkey, ← hek] at this
                omega
            exact ⟨horig.1, hlt3⟩
          obtain ⟨s2, r, heq2, hinv2, hpres2, hfound, hnone⟩ :=
            ih s1 key low ((low + high) / 2) hinv1 hsort1
              (by rw [hcount1]; omega) (by omega) hwin1
          refine ⟨s2, r, heq2, hinv2,
            IndexPreserved_trans s s1 s2 hpres1 hpres2, ?_, ?_⟩
          · intro idx hidx
            obtain ⟨hi1, hi2⟩ := hfound idx hidx
            rw [hcount1] at hi1
            rw [viewKey_preserved s s1 hpres1 idx hi1] at hi2
            exact ⟨hi1, hi2⟩
          · intro hr i hi hkey
            refine hnone hr i (by rw [hcount1]; exact hi) ?_
            rw [viewKey_preserved s s1 hpres1 i hi]
            exact hkey
    · refine ⟨s, none, ?_, hinv, IndexPreserved_refl s, ?_, ?_⟩
      · show (if low < high then _ else (s, some none)) = (s, some none)
        rw [if_neg hlt]
      · intro idx hidx
        simp at hidx
      · intro _ i hi hkey
        have := hwin i hi hkey
        omega

/-- The loop of btreeLocateKey with `result = high` (which the code
maintains: `result` is assigned exactly when `high` is, to the same
value): computes the lower-bound partition point. -/
theorem btreeLocateKeyLoop_spec :
    ∀ (fuel : Nat) (s : DB) (key low high : Nat), EngineInv s →
    SortedIndex s → high ≤ s.indexCount → high - low < fuel → low ≤ high →
    (∀ i, i < low → viewKey s i < key) →
    (∀ i, high ≤ i → i < s.indexCount → key ≤ viewKey s i) →
    ∃ s' pos, btreeLocateKeyLoop s key low high high fuel = (s', some pos) ∧
      EngineInv s' ∧ IndexPreserved s s' ∧ low ≤ pos ∧ pos ≤ high ∧
      (∀ i, i < pos → viewKey s i < key) ∧
      (∀ i, pos ≤ i → i < s.indexCount → key ≤ viewKey s i) := by
  intro fuel
  induction fuel with
  | zero =>
    intro s key low high _ _ _ hfuel _ _ _
    omega
  | succ m ih =>
    intro s key low high hinv hsort hhigh hfuel hlh hlow hup
    by_cases hlt : low < high
    · have hmid : (low + high) / 2 < s.indexCount := by omega
      obtain ⟨s1, e, heq, hinv1, hpres1, _, _, _, hval⟩ :=
        getIndexEntry_spec s ((low + high) / 2) hinv
      have he : e.key = viewKey s ((low + high) / 2) := by
        rw [hval hmid]
        rfl
      have hsort1 : SortedIndex s1 := sorted_preserved s s1 hsort hpres1
      have hcount1 : s1.indexCount = s.indexCount := hpres1.1
      show ∃ s' pos,
        (if low < high then
          match getIndexEntry s ((low + high) / 2) with
          | (s1, none) => (s1, none)
          | (s1, some e) =>
            if e.key ≥ key then
              btreeLocateKeyLoop s1 key low ((low + high) / 2) ((low + high) / 2) m
            else btreeLocateKeyLoop s1 key ((low + high) / 2 + 1) high high m
         else (s, some high)) = (s', some pos) ∧ _
      rw [if_pos hlt, heq]
      dsimp only
      by_cases hge : e.key ≥ key
      · rw [if_pos hge]
        have hlow1 : ∀ i, i < low → viewKey s1 i < key := by
          intro i hi
          rw [viewKey_preserved s s1 hpres1 i (by omega)]
          exact hlow i hi
        have hup1 : ∀ i, (low + high) / 2 ≤ i → i < s1.indexCount →
            key ≤ viewKey s1 i := by
          intro i hi1 hi2
          rw [hcount1] at hi2
          rw [viewKey_preserved s s1 hpres1 i hi2]
          by_cases hieq : i = (low + high) / 2
          · rw [hieq, ← he]
            exact hge
          · have := hsort i hi2 ((low + high) / 2) (by omega)
            rw [← he] at this
            omega
        obtain ⟨s2, pos, heq2, hinv2, hpres2, hp1, hp2, hp3, hp4⟩ :=
          ih s1 key low ((low + high) / 2) hinv1 hsort1
            (by rw [hcount1]; omega) (by omega) (by omega) hlow1 hup1
        refine ⟨s2, pos, heq2, hinv2,
          IndexPreserved_trans s s1 s2 hpres1 hpres2, hp1, by omega, ?_, ?_⟩
        · intro i hi
          rw [← viewKey_preserved s s1 hpres1 i (by omega)]
          exact hp3 i hi
        · intro i hi1 hi2
          rw [← viewKey_preserved s s1 hpres1 i hi2]
          exact hp4 i hi1 (by rw [hcount1]; exact hi2)
      · rw [if_neg hge]
        push_neg at hge
        have hlow1 : ∀ i, i < (low + high) / 2 + 1 → viewKey s1 i < key := by
          intro i hi
          rw [viewKey_preserved s s1 hpres1 i (by omega)]
          by_cases hil : i < low
          · exact hlow i hil
          · by_cases hieq : i = (low + high) / 2
            · rw [hieq, ← he]
              exact hge
            · have := hsort ((low + high) / 2) hmid i (by omega)
              rw [← he] at this
              omega
        have hup1 : ∀ i, high ≤ i → i < s1.indexCount → key ≤ viewKey s1 i := by
          intro i hi1 hi2
          rw [hcount1] at hi2
          rw [viewKey_preserved s s1 hpres1 i hi2]
          exact hup i hi1 hi2
        obtain ⟨s2, pos, heq2, hinv2, hpres2, hp1, hp2, hp3, hp4⟩ :=
          ih s1 key ((low + high) / 2 + 1) high hinv1 hsort1
            (by rw [hcount1]; exact hhigh) (by omega) (by omega) hlow1 hup1
        refine ⟨s2, pos, heq2, hinv2,
          IndexPreserved_trans s s1 s2 hpres1 hpres2, by omega, hp2, ?_, ?_⟩
        · intro i hi
          rw [← viewKey_preserved s s1 hpres1 i (by omega)]
          exact hp3 i hi
        · intro i hi1 hi2
          rw [← viewKey_preserved s s1 hpres1 i hi2]
          exact hp4 i hi1 (by rw [hcount1]; exact hi2)
    · refine ⟨s, high, ?_, hinv, IndexPreserved_refl s, by omega, le_refl high,
        ?_, hup⟩
      · show (if low < high then _ else (s, some high)) = (s, some high)
        rw [if_neg hlt]
      · intro i hi
        exact hlow i (by omega)

/-- A slot of the resident page seen through the logical view. -/
theorem viewEnt_loaded (s : DB) (p j : Nat) (hl : s.pageLoaded = true)
    (hc : s.currentPageNumber = p) (hj : j < MAX_INDEX_ENTRIES) :
    viewEnt s (p * MAX_INDEX_ENTRIES + j) = s.page.getD j zeroEntry := by
  have hdiv : (p * MAX_INDEX_ENTRIES + j) / MAX_INDEX_ENTRIES = p := by
    simp only [MAX_INDEX_ENTRIES] at *
    omega
  rw [viewEnt_resident _ _ ⟨hl, by rw [hdiv, hc]⟩]
  congr 1
  simp only [MAX_INDEX_ENTRIES] at *
  omega

/-- The demand-load step shared by getIndexEntry, setIndexEntry and
insertIndexEntry: afterwards page `p` is resident. -/
theorem ensureLoaded_spec (s : DB) (p : Nat) (h : EngineInv s) :
    ∃ s', (if s.pageLoaded = false ∨ s.currentPageNumber ≠ p
        then loadIndexPage s p else (s, true)) = (s', true) ∧
      EngineInv s' ∧ IndexPreserved s s' ∧ s'.pageLoaded = true ∧
      s'.currentPageNumber = p := by
  by_cases hc : s.pageLoaded = false ∨ s.currentPageNumber ≠ p
  · obtain ⟨s1, heq, hinv, hpres, hl, hcur, hdirty, hex, hcount, hplen,
      hcov, hvd⟩ := loadIndexPage_spec s p h
    refine ⟨s1, ?_, hinv, hpres, hl, hcur⟩
    rw [if_pos hc, heq]
  · push_neg at hc
    obtain ⟨hl, hp⟩ := hc
    have hl2 : s.pageLoaded = true := by
      revert hl
      cases s.pageLoaded <;> simp
    refine ⟨s, ?_, h, IndexPreserved_refl s, hl2, hp⟩
    rw [if_neg (by
      push_neg
      exact ⟨hl, hp⟩)]

/-- DBEngine::searchIndex on a sorted well-formed state: found results
carry the key, and not-found means the key is nowhere in the index. -/
theorem searchIndex_spec (s : DB) (key : Nat) (h : EngineInv s)
    (hs : SortedIndex s) :
    ∃ s' r, searchIndex s key = (s', r) ∧ EngineInv s' ∧
      IndexPreserved s s' ∧
      (∀ idx, r = some idx → idx < s.indexCount ∧ viewKey s idx = key) ∧
      (r = none → ∀ i, i < s.indexCount → viewKey s i ≠ key) := by
  obtain ⟨s1, r, heq, hinv1, hpres1, hfound, hnone⟩ :=
    searchLoop_spec (s.indexCount + 1) s key 0 s.indexCount h hs
      (le_refl _) (by omega) (fun i hi _ => ⟨Nat.zero_le i, hi⟩)
  refine ⟨s1, r, ?_, hinv1, hpres1, hfound, hnone⟩
  unfold searchIndex
  rw [heq]

/-- The post-uniqueness-check tail of insertIndexEntry, in the in-page
(no-split) case: on a well-formed state, inserting at a position whose
page has room succeeds, shifts the entries at and above the position up
by one, places the new key/offset/status at the position (with a stale
internal_status byte), and increments the count. -/
theorem insertAtPos_spec (s : DB) (key offset status pos : Nat)
    (h : EngineInv s) (hpos1 : pos ≤ s.indexCount)
    (hroom : s.indexCount <
      pos / MAX_INDEX_ENTRIES * MAX_INDEX_ENTRIES + MAX_INDEX_ENTRIES) :
    ∃ s' ist, insertAtPos s pos key offset status = (s', true) ∧
      EngineInv s' ∧ s'.indexCount = s.indexCount + 1 ∧
      s'.log = s.log ∧ s'.logExists = s.logExists ∧
      viewEnt s' pos = ⟨key, offset, status, ist⟩ ∧
      (∀ i, i < pos → viewEnt s' i = viewEnt s i) ∧
      (∀ i, pos ≤ i → i < s.indexCount → viewEnt s' (i + 1) = viewEnt s i) := by
  obtain ⟨s4, heq4, hinv4, hpres4, hl4, hc4⟩ :=
    ensureLoaded_spec s (pos / MAX_INDEX_ENTRIES) h
  obtain ⟨hex4, hplen4, hdl4, hcov4, hclean4⟩ := hinv4
  obtain ⟨hcount4, hlog4, hlex4, hview4⟩ := hpres4
  have htp_le : pos / MAX_INDEX_ENTRIES * MAX_INDEX_ENTRIES ≤ pos :=
    Nat.div_mul_le_self _ _
  have hslpos : pos % MAX_INDEX_ENTRIES =
      pos - pos / MAX_INDEX_ENTRIES * MAX_INDEX_ENTRIES := by
    simp only [MAX_INDEX_ENTRIES] at *
    omega
  have hsl_lt : pos % MAX_INDEX_ENTRIES < MAX_INDEX_ENTRIES := by
    simp only [MAX_INDEX_ENTRIES]
    omega
  have hn_le4 : pos % MAX_INDEX_ENTRIES ≤
      s4.indexCount - pos / MAX_INDEX_ENTRIES * MAX_INDEX_ENTRIES := by
    rw [hcount4]
    omega
  have hn_lt4 : s4.indexCount - pos / MAX_INDEX_ENTRIES * MAX_INDEX_ENTRIES <
      MAX_INDEX_ENTRIES := by
    rw [hcount4]
    omega
  have hmin : min MAX_INDEX_ENTRIES
      (s4.indexCount - pos / MAX_INDEX_ENTRIES * MAX_INDEX_ENTRIES) =
      s4.indexCount - pos / MAX_INDEX_ENTRIES * MAX_INDEX_ENTRIES := by
    omega
  unfold insertAtPos
  dsimp only
  rw [heq4]
  dsimp only
  rw [hmin, if_pos hn_lt4]
  set s5 : DB := { s4 with
    page := pageShiftInsert s4.page (pos % MAX_INDEX_ENTRIES)
      (s4.indexCount - pos / MAX_INDEX_ENTRIES * MAX_INDEX_ENTRIES)
      key offset status
    indexCount := s4.indexCount + 1
    pageDirty := true } with hs5
  have hlen5 : s5.page.length = MAX_INDEX_ENTRIES := by
    show (pageShiftInsert s4.page (pos % MAX_INDEX_ENTRIES)
      (s4.indexCount - pos / MAX_INDEX_ENTRIES * MAX_INDEX_ENTRIES)
      key offset status).length = MAX_INDEX_ENTRIES
    rw [pageShiftInsert_length _ _ _ _ _ _ hn_le4 (by
      rw [hplen4]
      exact hn_lt4)]
    exact hplen4
  have hl5 : s5.pageLoaded = true := hl4
  have hc5 : s5.currentPageNumber = pos / MAX_INDEX_ENTRIES := hc4
  have hcnt5 : s5.indexCount = s4.indexCount + 1 := rfl
  have hres5 : ∀ g, g / MAX_INDEX_ENTRIES = pos / MAX_INDEX_ENTRIES →
      resident s5 g := by
    intro g hg
    refine ⟨hl5, ?_⟩
    rw [hc5]
    exact hg
  have hres5_iff : ∀ g, resident s5 g ↔ resident s4 g := by
    intro g
    unfold resident
    constructor
    · intro hr
      exact ⟨hl4, hr.2⟩
    · intro hr
      exact ⟨hl5, hr.2⟩
  -- view of s5 at the insertion position
  have hv_pos : viewEnt s5 pos =
      { key := key, offset := offset, status := status,
        internal_status :=
          (s4.page.getD (pos % MAX_INDEX_ENTRIES) zeroEntry).internal_status } := by
    rw [viewEnt_resident s5 pos (hres5 pos rfl)]
    show (pageShiftInsert s4.page (pos % MAX_INDEX_ENTRIES)
      (s4.indexCount - pos / MAX_INDEX_ENTRIES * MAX_INDEX_ENTRIES)
      key offset status).getD (pos % MAX_INDEX_ENTRIES) zeroEntry = _
    rw [pageShiftInsert_getD_self _ _ _ _ _ _ (by
      rw [hplen4]
      exact hsl_lt)]
  -- view of s5 strictly below the insertion position
  have hv_lt : ∀ i, i < pos → viewEnt s5 i = viewEnt s4 i := by
    intro i hi
    by_cases hipage : i / MAX_INDEX_ENTRIES = pos / MAX_INDEX_ENTRIES
    · have hri5 := hres5 i hipage
      have hri4 : resident s4 i := (hres5_iff i).mp hri5
      rw [viewEnt_resident s5 i hri5, viewEnt_resident s4 i hri4]
      show (pageShiftInsert s4.page (pos % MAX_INDEX_ENTRIES)
        (s4.indexCount - pos / MAX_INDEX_ENTRIES * MAX_INDEX_ENTRIES)
        key offset status).getD (i % MAX_INDEX_ENTRIES) zeroEntry = _
      rw [pageShiftInsert_getD_lt _ _ _ _ _ _ _ (by
          simp only [MAX_INDEX_ENTRIES] at *
          omega) (by
          rw [hplen4]
          exact hsl_lt)]
    · have hnr5 : ¬resident s5 i := by
        intro hr
        exact hipage (by rw [hr.2, hc5])
      have hnr4 : ¬resident s4 i := fun hr => hnr5 ((hres5_iff i).mpr hr)
      rw [viewEnt_not_resident s5 i hnr5, viewEnt_not_resident s4 i hnr4]
  -- view of s5 at and above the insertion position: shifted up by one
  have hv_shift : ∀ i, pos ≤ i → i < s4.indexCount →
      viewEnt s5 (i + 1) = viewEnt s4 i := by
    intro i hi1 hi2
    have hdiv1 : (i + 1) / MAX_INDEX_ENTRIES = pos / MAX_INDEX_ENTRIES := by
      rw [hcount4] at hi2
      simp only [MAX_INDEX_ENTRIES] at *
      omega
    have hdivi : i / MAX_INDEX_ENTRIES = pos / MAX_INDEX_ENTRIES := by
      rw [hcount4] at hi2
      simp only [MAX_INDEX_ENTRIES] at *
      omega
    have hri5 := hres5 (i + 1) hdiv1
    have hri4 : resident s4 i := (hres5_iff i).mp (hres5 i hdivi)
    rw [viewEnt_resident s5 (i + 1) hri5, viewEnt_resident s4 i hri4]
    show (pageShiftInsert s4.page (pos % MAX_INDEX_ENTRIES)
      (s4.indexCount - pos / MAX_INDEX_ENTRIES * MAX_INDEX_ENTRIES)
      key offset status).getD ((i + 1) % MAX_INDEX_ENTRIES) zeroEntry = _
    rw [pageShiftInsert_getD_shift _ _ _ _ _ _ _ (by
        rw [hcount4] at hi2
        simp only [MAX_INDEX_ENTRIES] at *
        omega) (by
        rw [hcount4] at hi2
        simp only [MAX_INDEX_ENTRIES] at *
        omega) (by
        rw [hplen4]
        exact hsl_lt) (by
        rw [hplen4]
        exact Nat.le_of_lt hn_lt4)]
    congr 1
    rw [hcount4] at hi2
    simp only [MAX_INDEX_ENTRIES] at *
    omega
  have hinv5 : EngineInv s5 := by
    refine ⟨hex4, hlen5, fun _ => hl5, ?_, ?_⟩
    · intro g hg hnr
      have hg4 : g < s4.indexCount := by
        rcases Nat.lt_or_ge g s4.indexCount with hlt | hge
        · exact hlt
        · exfalso
          have hgeq : g = s4.indexCount := by
            rw [hcnt5] at hg
            omega
          refine hnr (hres5 g ?_)
          rw [hgeq, hcount4]
          simp only [MAX_INDEX_ENTRIES] at *
          omega
      exact hcov4 g hg4 (fun hr => hnr ((hres5_iff g).mpr hr))
    · intro hdirty
      exact absurd hdirty (by
        show ¬(true = false)
        simp)
  -- the page-becomes-full flush
  by_cases hfull : (s4.indexCount - pos / MAX_INDEX_ENTRIES * MAX_INDEX_ENTRIES
      + 1 == MAX_INDEX_ENTRIES) = true
  · rw [if_pos hfull]
    obtain ⟨s6, heq6, hinv6, hpres6, hdirty6, hpage6, hloaded6, hcur6, hex6,
      hcount6, hcov6⟩ := flushIndexPage_spec s5 hinv5
    have hvp6 : ∀ g, g < s4.indexCount + 1 → viewEnt s6 g = viewEnt s5 g := by
      intro g hg
      exact hpres6.2.2.2 g hg
    refine ⟨s6, (s4.page.getD (pos % MAX_INDEX_ENTRIES) zeroEntry).internal_status,
      heq6, hinv6, ?_, ?_, ?_, ?_, ?_, ?_⟩
    · rw [hcount6, hcnt5, hcount4]
    · rw [hpres6.2.1]
      exact hlog4
    · rw [hpres6.2.2.1]
      exact hlex4
    · rw [hvp6 pos (by
        rw [hcount4]
        omega)]
      exact hv_pos
    · intro i hi
      rw [hvp6 i (by
        rw [hcount4]
        omega), hv_lt i hi]
      exact hview4 i (by omega)
    · intro i hi1 hi2
      rw [hvp6 (i + 1) (by
        rw [hcount4]
        omega), hv_shift i hi1 (by
        rw [hcount4]
        exact hi2)]
      exact hview4 i hi2
  · rw [if_neg hfull]
    refine ⟨s5, (s4.page.getD (pos % MAX_INDEX_ENTRIES) zeroEntry).internal_status,
      rfl, hinv5, ?_, ?_, ?_, hv_pos, ?_, ?_⟩
    · rw [hcnt5, hcount4]
    · exact hlog4
    · exact hlex4
    · intro i hi
      rw [hv_lt i hi]
      exact hview4 i (by omega)
    · intro i hi1 hi2
      rw [hv_shift i hi1 (by
        rw [hcount4]
        exact hi2)]
      exact hview4 i hi2

/-- Nat equality test is false on distinct numbers. -/
theorem nat_beq_false (a b : Nat) (h : a ≠ b) : (a == b) = false := by
  cases hc : a == b with
  | false => rfl
  | true => exact absurd (by simpa using hc) h

/-- DBEngine::insertIndexEntry on a sorted well-formed state, inserting a
fresh key whose sorted position `pos` falls in a page with room (no
split): succeeds, shifts the suffix up by one, places the new entry at
`pos`, increments the count, and keeps the index sorted. -/
theorem insertIndexEntry_spec (s : DB) (key offset status pos : Nat)
    (h : EngineInv s) (hsort : SortedIndex s)
    (hpos1 : pos ≤ s.indexCount)
    (hpos2 : ∀ i, i < pos → viewKey s i < key)
    (hpos3 : ∀ i, pos ≤ i → i < s.indexCount → key < viewKey s i)
    (hroom : s.indexCount <
      pos / MAX_INDEX_ENTRIES * MAX_INDEX_ENTRIES + MAX_INDEX_ENTRIES) :
    ∃ s' ist, insertIndexEntry s key offset status = (s', true) ∧
      EngineInv s' ∧ s'.indexCount = s.indexCount + 1 ∧
      s'.log = s.log ∧ s'.logExists = s.logExists ∧
      viewEnt s' pos = ⟨key, offset, status, ist⟩ ∧
      (∀ i, i < pos → viewEnt s' i = viewEnt s i) ∧
      (∀ i, pos ≤ i → i < s.indexCount → viewEnt s' (i + 1) = viewEnt s i) ∧
      SortedIndex s' := by
  obtain ⟨s1, pos1, heq1, hinv1, hpres1, hge1, hle1, hlow1, hup1⟩ :=
    lowerBoundLoop_spec (s.indexCount + 1) s key 0 s.indexCount h hsort
      (le_refl _) (by omega) (Nat.zero_le _)
      (fun i hi => absurd hi (Nat.not_lt_zero i))
      (fun i hi1 hi2 => by omega)
  have hpeq : pos1 = pos := by
    rcases Nat.lt_trichotomy pos1 pos with hlt | heqq | hgt
    · have h1 := hpos2 pos1 hlt
      have h2 := hup1 pos1 (le_refl _) (by omega)
      omega
    · exact heqq
    · have h1 := hlow1 pos hgt
      have h2 := hpos3 pos (le_refl _) (by omega)
      omega
  rw [hpeq] at heq1
  have tail : ∀ t : DB, EngineInv t → IndexPreserved s t →
      ∃ s' ist, insertAtPos t pos key offset status = (s', true) ∧
        EngineInv s' ∧ s'.indexCount = s.indexCount + 1 ∧
        s'.log = s.log ∧ s'.logExists = s.logExists ∧
        viewEnt s' pos = ⟨key, offset, status, ist⟩ ∧
        (∀ i, i < pos → viewEnt s' i = viewEnt s i) ∧
        (∀ i, pos ≤ i → i < s.indexCount → viewEnt s' (i + 1) = viewEnt s i) ∧
        SortedIndex s' := by
    intro t hinvT hpresT
    have hcntT : t.indexCount = s.indexCount := hpresT.1
    obtain ⟨s', ist, heqI, hinvI, hcntI, hlogI, hlexI, hvposI, hvltI, hvshI⟩ :=
      insertAtPos_spec t key offset status pos hinvT
        (by rw [hcntT]; exact hpos1) (by rw [hcntT]; exact hroom)
    have hvlt : ∀ i, i < pos → viewEnt s' i = viewEnt s i := by
      intro i hi
      rw [hvltI i hi]
      exact hpresT.2.2.2 i (by omega)
    have hvsh : ∀ i, pos ≤ i → i < s.indexCount →
        viewEnt s' (i + 1) = viewEnt s i := by
      intro i hi1 hi2
      rw [hvshI i hi1 (by rw [hcntT]; exact hi2)]
      exact hpresT.2.2.2 i hi2
    refine ⟨s', ist, heqI, hinvI, by rw [hcntI, hcntT],
      by rw [hlogI, hpresT.2.1], by rw [hlexI, hpresT.2.2.1],
      hvposI, hvlt, hvsh, ?_⟩
    have hchar : ∀ x, x < s.indexCount + 1 →
        ((x < pos → viewKey s' x = viewKey s x) ∧
         (x = pos → viewKey s' x = key) ∧
         (pos < x → viewKey s' x = viewKey s (x - 1))) := by
      intro x hx
      refine ⟨?_, ?_, ?_⟩
      · intro hxp
        unfold viewKey
        rw [hvlt x hxp]
      · intro hxe
        subst hxe
        unfold viewKey
        rw [hvposI]
      · intro hxp
        have hx1 : x - 1 + 1 = x := by omega
        have hstep := hvsh (x - 1) (by omega) (by omega)
        rw [hx1] at hstep
        unfold viewKey
        rw [hstep]
    intro j hj i hij
    have hj' : j < s.indexCount + 1 := by
      rw [hcntI, hcntT] at hj
      exact hj
    have hi' : i < s.indexCount + 1 := by omega
    obtain ⟨hcj1, hcj2, hcj3⟩ := hchar j hj'
    obtain ⟨hci1, hci2, hci3⟩ := hchar i hi'
    rcases Nat.lt_trichotomy j pos with hjp | hjp | hjp
    · rw [hcj1 hjp, hci1 (by omega)]
      exact hsort j (by omega) i hij
    · rw [hcj2 hjp, hci1 (by omega)]
      exact hpos2 i (by omega)
    · rw [hcj3 hjp]
      rcases Nat.lt_trichotomy i pos with hip | hip | hip
      · rw [hci1 hip]
        exact hsort (j - 1) (by omega) i (by omega)
      · rw [hci2 hip]
        exact hpos3 (j - 1) (by omega) (by omega)
      · rw [hci3 hip]
        exact hsort (j - 1) (by omega) (i - 1) (by omega)
  unfold insertIndexEntry
  rw [heq1]
  dsimp only
  by_cases hposc : pos < s1.indexCount
  · rw [if_pos hposc]
    obtain ⟨s2, e, heqg, hinv2, hpres2, _, _, _, hval2⟩ :=
      getIndexEntry_spec s1 pos hinv1
    rw [heqg]
    dsimp only
    have he : e = viewEnt s pos := by
      rw [hval2 hposc]
      exact hpres1.2.2.2 pos (by rw [← hpres1.1]; exact hposc)
    have hkne : (e.key == key) = false := by
      refine nat_beq_false _ _ ?_
      have hk := hpos3 pos (le_refl _) (by rw [← hpres1.1]; exact hposc)
      rw [he]
      unfold viewKey at hk
      omega
    rw [hkne]
    dsimp only
    have hpres12 : IndexPreserved s s2 := IndexPreserved_trans s s1 s2 hpres1 hpres2
    by_cases hpos0 : 0 < pos
    · rw [if_pos hpos0]
      obtain ⟨s3, e2, heqg2, hinv3, hpres3, _, _, _, hval3⟩ :=
        getIndexEntry_spec s2 (pos - 1) hinv2
      rw [heqg2]
      dsimp only
      have he2 : e2 = viewEnt s (pos - 1) := by
        rw [hval3 (by rw [hpres12.1]; rw [hpres1.1] at hposc; omega)]
        exact hpres12.2.2.2 (pos - 1) (by rw [hpres1.1] at hposc; omega)
      have hkne2 : (e2.key == key) = false := by
        refine nat_beq_false _ _ ?_
        have hk := hpos2 (pos - 1) (by omega)
        rw [he2]
        unfold viewKey at hk
        omega
      rw [hkne2]
      dsimp only
      exact tail s3 hinv3 (IndexPreserved_trans s s2 s3 hpres12 hpres3)
    · rw [if_neg hpos0]
      dsimp only
      exact tail s2 hinv2 hpres12
  · rw [if_neg hposc]
    dsimp only
    by_cases hpos0 : 0 < pos
    · rw [if_pos hpos0]
      obtain ⟨s3, e2, heqg2, hinv3, hpres3, _, _, _, hval3⟩ :=
        getIndexEntry_spec s1 (pos - 1) hinv1
      rw [heqg2]
      dsimp only
      have he2 : e2 = viewEnt s (pos - 1) := by
        rw [hval3 (by rw [hpres1.1]; omega)]
        exact hpres1.2.2.2 (pos - 1) (by omega)
      have hkne2 : (e2.key == key) = false := by
        refine nat_beq_false _ _ ?_
        have hk := hpos2 (pos - 1) (by omega)
        rw [he2]
        unfold viewKey at hk
        omega
      rw [hkne2]
      dsimp only
      exact tail s3 hinv3 (IndexPreserved_trans s s1 s3 hpres1 hpres3)
    · rw [if_neg hpos0]
      dsimp only
      exact tail s1 hinv1 hpres1

/-- DBEngine::btreeLocateKey on a sorted well-formed state: a found
position is the smallest whose key is ≥ the probe, and not-found holds
exactly when every key is strictly below the probe. -/
theorem btreeLocateKey_spec (s : DB) (key : Nat) (h : EngineInv s)
    (hsort : SortedIndex s) :
    ∃ s' r, btreeLocateKey s key = (s', r) ∧ EngineInv s' ∧
      IndexPreserved s s' ∧
      (∀ p, r = some p → p < s.indexCount ∧ key ≤ viewKey s p ∧
        ∀ i, i < p → viewKey s i < key) ∧
      (r = none → ∀ i, i < s.indexCount → viewKey s i < key) := by
  obtain ⟨s1, pos, heq1, hinv1, hpres1, hge1, hle1, hlow1, hup1⟩ :=
    btreeLocateKeyLoop_spec (s.indexCount + 1) s key 0 s.indexCount h hsort
      (le_refl _) (by omega) (Nat.zero_le _)
      (fun i hi => absurd hi (Nat.not_lt_zero i))
      (fun i hi1 hi2 => by omega)
  have hcnt1 : s1.indexCount = s.indexCount := hpres1.1
  by_cases hc : pos < s1.indexCount
  · refine ⟨s1, some pos, ?_, hinv1, hpres1, ?_, ?_⟩
    · unfold btreeLocateKey
      rw [heq1]
      dsimp only
      rw [if_pos hc]
    · intro p hp
      have hpp : p = pos := by
        injection hp with hpp
        exact hpp.symm
      subst hpp
      rw [hcnt1] at hc
      exact ⟨hc, hup1 p (le_refl _) hc, hlow1⟩
    · intro hn
      exact absurd hn (by simp)
  · refine ⟨s1, none, ?_, hinv1, hpres1, ?_, ?_⟩
    · unfold btreeLocateKey
      rw [heq1]
      dsimp only
      rw [if_neg hc]
    · intro p hp
      exact absurd hp (by simp)
    · intro _ i hi
      refine hlow1 i ?_
      rw [hcnt1] at hc
      omega

set_option maxHeartbeats 4000000

/-- C1: REFUTED (code bug).  On the all-successful run of 257 descending
appends after open, the logical index ends with indexCount = 257 but keys
1000 and 873 at adjacent positions 255 and 256: the strict ascending
invariant fails across the page boundary.  (splitPageAndInsert flushes the
full stale 256-slot buffer of the split page, so the first split already
breaks the order.) -/
theorem C1_sorted_invariant_violated : c1check = true := by decide

/-- C2: REFUTED (code bug).  On the 258-append prefix of the reverse-order
stress (keys 1000 down to 743, payload `[key % 256]`), every append
reports success, yet the index holds keys 1000 and 872 at adjacent
positions 255 and 256 (not strictly ascending), and `get(872)` already
fails even though `append(872, ...)` succeeded.  The full 1000-append run
ends unsorted the same way, with 768 of the 1000 keys unreadable. -/
theorem C2_reverse_stress_fails : c2check = true := by decide

/-- C3 (amended): the on-disk index file begins with a 4-byte header
holding only the u32 entry count (saveIndexHeader writes
`sizeof(_indexCount)` bytes at offset 0; the 10-byte DBIndexHeader struct
with magic and version is never written), and every page-cache operation
(flush, load, and the split's new-page write) places page `p`'s entries at
byte offset `4 + p * 256 * 10`. -/
theorem C3_layout_amended (p count : Nat) :
    flushPageByteOffset p = 4 + p * 2560 ∧
    loadPageByteOffset p = 4 + p * 2560 ∧
    splitNewPageByteOffset p = 4 + (p + 1) * 2560 ∧
    (indexHeaderBytes count).length = 4 := by
  refine ⟨?_, ?_, ?_, rfl⟩ <;>
    simp [flushPageByteOffset, loadPageByteOffset, splitNewPageByteOffset,
      sizeofIndexCount, sizeofIndexEntry, MAX_INDEX_ENTRIES, Nat.mul_comm,
      Nat.mul_assoc]

/-- C3 (counterexample to the spec's layout): the code seeks page 0 to
byte 4 where the spec places it at byte 10, and the header the code writes
is 4 bytes where the spec's Index File Header is 10 bytes. -/
theorem C3_layout_counterexample :
    flushPageByteOffset 0 = 4 ∧ specPageByteOffset 0 = 10 ∧
    flushPageByteOffset 0 ≠ specPageByteOffset 0 ∧
    (indexHeaderBytes 7).length = 4 ∧ (specIndexHeaderBytes 7).length = 10 ∧
    (indexHeaderBytes 7).length ≠ (specIndexHeaderBytes 7).length := by
  decide

/-- loadDBHeader on an existing, long-enough log whose magic mismatches:
returns failure without touching the state. -/
theorem loadDBHeader_badMagic (t : DB) (hlog : t.logExists = true)
    (hlen : 6 ≤ t.log.length)
    (hmagic : t.log.getD 0 0 + 256 * t.log.getD 1 0 + 2 ^ 16 * t.log.getD 2 0
      + 2 ^ 24 * t.log.getD 3 0 ≠ DB_MAGIC_NUMBER) :
    loadDBHeader t = (t, false) := by
  unfold loadDBHeader
  rw [if_neg (by rw [hlog]; simp), if_neg (by omega)]
  dsimp only
  rw [if_pos hmagic]

/-- saveDBHeader on an existing log rewrites the first six bytes. -/
theorem saveDBHeader_exists (t : DB) (hlog : t.logExists = true) :
    saveDBHeader t = ({ t with log := dbHeaderBytes ++ t.log.drop 6 }, true) := by
  unfold saveDBHeader
  rw [if_pos hlog]

/-- dbBuildIndex when no index file exists: creates the empty index file
and succeeds with indexCount 0. -/
theorem dbBuildIndex_noIndex (t : DB) (hidx : t.idxExists = false) :
    dbBuildIndex t = ({ t with
      indexCount := 0
      idxExists := true
      idxDisk := []
      idxHeaderCount := 0 }, true) := by
  unfold dbBuildIndex
  dsimp only
  have hlih : loadIndexHeader t = ({ t with indexCount := 0 }, true) := by
    unfold loadIndexHeader
    rw [if_neg (by rw [hidx]; simp)]
  rw [hlih]
  dsimp only
  rw [if_pos (show ({ t with indexCount := 0 } : DB).indexCount = 0 from rfl)]
  have hsih : saveIndexHeader { t with indexCount := 0 } =
      ({ t with
        indexCount := 0
        idxExists := true
        idxDisk := []
        idxHeaderCount := 0 }, true) := by
    unfold saveIndexHeader
    rw [if_neg (by rw [hidx]; simp)]
  rw [hsih]
  dsimp only
  unfold validateIndex
  rw [if_pos (show ({ t with
    indexCount := 0
    idxExists := true
    idxDisk := []
    idxHeaderCount := 0 } : DB).indexCount = 0 from rfl)]

/-- C4 (amended): when the log file exists, its header is readable but the
magic does not match, `open` does NOT fail: loadDBHeader's failure makes
open rewrite the first 6 bytes with a fresh DBHeader (saveDBHeader) and
continue, returning success (the absent index file is created empty on the
way). -/
theorem C4_open_rewrites_bad_header (s : DB)
    (hlog : s.logExists = true) (hlen : 6 ≤ s.log.length)
    (hmagic : s.log.getD 0 0 + 256 * s.log.getD 1 0 + 2 ^ 16 * s.log.getD 2 0
      + 2 ^ 24 * s.log.getD 3 0 ≠ DB_MAGIC_NUMBER)
    (hidx : s.idxExists = false) :
    ∃ s', openDB s = (s', true) ∧ s'.logExists = true ∧
      s'.log = dbHeaderBytes ++ s.log.drop 6 := by
  unfold openDB
  dsimp only
  rw [loadDBHeader_badMagic { s with indexCount := 0, pageLoaded := false, pageDirty := false, currentPageNumber := 0 } hlog hlen hmagic]
  dsimp only
  rw [saveDBHeader_exists { s with indexCount := 0, pageLoaded := false, pageDirty := false, currentPageNumber := 0 } hlog]
  dsimp only
  unfold loadIndex
  rw [dbBuildIndex_noIndex { s with indexCount := 0, pageLoaded := false, pageDirty := false, currentPageNumber := 0, log := dbHeaderBytes ++ s.log.drop 6 } hidx]
  exact ⟨_, rfl, hlog, rfl⟩

/-- A state whose log holds a 6-byte header with a wrong magic number
(bytes 0-3 read 0x01000000, not 0x53474F4C). -/
def c4state : DB :=
  { idxExists := false, idxHeaderCount := 0, idxDisk := [],
    logExists := true, log := [0, 0, 0, 1, 1, 0],
    indexCount := 0, page := List.replicate MAX_INDEX_ENTRIES zeroEntry,
    currentPageNumber := 0, pageLoaded := false, pageDirty := false }

/-- C4 (counterexample to the spec): on a log whose header magic
mismatches, `open` returns success and silently replaces the header with a
fresh one, where the spec demands failure. -/
theorem C4_open_counterexample :
    (c4state.log.getD 0 0 + 256 * c4state.log.getD 1 0
      + 2 ^ 16 * c4state.log.getD 2 0 + 2 ^ 24 * c4state.log.getD 3 0
      ≠ DB_MAGIC_NUMBER) ∧
    (openDB c4state).2 = true ∧ (openDB c4state).1.log = dbHeaderBytes := by
  decide

/-- C4 witness: the amended theorem applied at the concrete bad-magic
state. -/
theorem C4_open_rewrites_bad_header_witness :
    ∃ s', openDB c4state = (s', true) ∧ s'.logExists = true ∧
      s'.log = dbHeaderBytes ++ c4state.log.drop 6 :=
  C4_open_rewrites_bad_header c4state rfl (by decide) (by decide) rfl

/-- C10: CONFIRMED.  getIndexEntry performs no bounds check of the global
position against _indexCount: on any well-formed state and ANY position
`g` (in range or far beyond the data), the call succeeds and returns
whatever occupies slot `g % MAX_INDEX_ENTRIES` of the then-resident
buffer; it never signals an out-of-range position. -/
theorem C10_getIndexEntry_no_bounds_check (s : DB) (g : Nat)
    (h : EngineInv s) :
    ∃ s' e, getIndexEntry s g = (s', some e) ∧
      e = s'.page.getD (g % MAX_INDEX_ENTRIES) zeroEntry := by
  obtain ⟨s', e, heq, _, _, hbuf, _, _, _⟩ := getIndexEntry_spec s g h
  exact ⟨s', e, heq, hbuf⟩

/-- The engine state after open on a fresh database and one append
(key 5): indexCount is 1. -/
def w10state : DB := (append [] (openDB freshDB).1 5 1 [1]).1

/-- C10 witness: position 1000, far beyond indexCount = 1, still
succeeds. -/
theorem C10_getIndexEntry_no_bounds_check_witness :
    w10state.indexCount = 1 ∧
    ∃ s' e, getIndexEntry w10state 1000 = (s', some e) ∧
      e = s'.page.getD (1000 % MAX_INDEX_ENTRIES) zeroEntry :=
  ⟨by decide, C10_getIndexEntry_no_bounds_check w10state 1000 (by decide)⟩

/-- C7 (amended): a successful loadPage(p) fills the first
`entriesInPageOf` slots of the buffer from the index file, but it does NOT
zero-fill the remaining slots up to capacity: every slot at and beyond the
page's entry count keeps the previous buffer contents (the memset covers
only the unread part of the expected bytes), so stale entries from a
previously resident page remain. -/
theorem C7_loadPage_partial_zero_fill (s : DB) (p : Nat) (h : EngineInv s) :
    ∃ s', loadIndexPage s p = (s', true) ∧
      s'.page.length = MAX_INDEX_ENTRIES ∧
      (∀ j, j < entriesInPageOf s.indexCount (p * MAX_INDEX_ENTRIES) →
        s'.page.getD j zeroEntry =
          s'.idxDisk.getD (p * MAX_INDEX_ENTRIES + j) zeroEntry) ∧
      (∀ j, entriesInPageOf s.indexCount (p * MAX_INDEX_ENTRIES) ≤ j →
        j < MAX_INDEX_ENTRIES →
        s'.page.getD j zeroEntry = s.page.getD j zeroEntry) := by
  obtain ⟨s1, heq1, hinv1, hpres1, hdirty1, hpage1, hloaded1, hcur1, hex1,
    hcount1, hcov1⟩ := flushIndexPage_spec s h
  obtain ⟨hex1b, hpl1, hdl1, hcovb1, hclean1⟩ := hinv1
  have hexne1 : ¬(s1.idxExists = false) := by rw [hex1]; simp
  set first := p * MAX_INDEX_ENTRIES with hfirst
  set expected := entriesInPageOf s1.indexCount first with hexpected
  set fresh := readSlots s1.idxDisk first expected with hfresh
  have hexpMAX : expected ≤ MAX_INDEX_ENTRIES := entriesInPageOf_le _ _
  have hfreshlen : fresh.length = expected := by
    rw [hfresh, readSlots_length]
    by_cases hz : expected = 0
    · rw [hz]
      simp
    · have hin := entriesInPageOf_lt s1.indexCount first (expected - 1)
        (by omega)
      have := hcov1 (first + (expected - 1)) (by rw [← hcount1]; omega)
      omega
  set page1 := fresh ++ List.replicate (expected - fresh.length) zeroEntry
    ++ s1.page.drop expected with hpage10
  have hp1len : page1.length = MAX_INDEX_ENTRIES := by
    rw [hpage10]
    have hpl0 : s.page.length = MAX_INDEX_ENTRIES := h.2.1
    simp only [List.length_append, List.length_replicate, List.length_drop,
      hfreshlen, hpage1, hpl0]
    omega
  have hexp0 : entriesInPageOf s.indexCount first = expected := by
    rw [hexpected, hcount1]
  have hp1get : ∀ j, j < expected →
      page1.getD j zeroEntry = s1.idxDisk.getD (first + j) zeroEntry := by
    intro j hj
    rw [hpage10]
    have : (fresh ++ List.replicate (expected - fresh.length) zeroEntry
        ++ s1.page.drop expected).getD j zeroEntry = fresh.getD j zeroEntry := by
      simp only [List.getD_eq_getElem?_getD]
      rw [List.getElem?_append_left (by
            simp only [List.length_append, hfreshlen, List.length_replicate]
            omega),
        List.getElem?_append_left (by rw [hfreshlen]; omega)]
    rw [this, hfresh, readSlots_getD _ _ _ _ hj]
  have hp1stale : ∀ j, expected ≤ j → j < MAX_INDEX_ENTRIES →
      page1.getD j zeroEntry = s1.page.getD j zeroEntry := by
    intro j hj1 hj2
    rw [hpage10]
    simp only [List.getD_eq_getElem?_getD]
    rw [List.getElem?_append_right (by
          simp only [List.length_append, hfreshlen, List.length_replicate]
          omega),
      List.getElem?_drop]
    congr 2
    simp only [List.length_append, hfreshlen, List.length_replicate]
    omega
  refine ⟨{ s1 with
      page := page1
      currentPageNumber := p
      pageLoaded := true
      pageDirty := false },
    ?_, hp1len, ?_, ?_⟩
  · unfold loadIndexPage
    rw [heq1]
    dsimp only
    rw [if_neg hexne1]
  · intro j hj
    rw [hexp0] at hj
    exact hp1get j hj
  · intro j hj1 hj2
    rw [hexp0] at hj1
    rw [hp1stale j hj1 hj2, hpage1]

/-- A well-formed state holding 257 ascending entries (keys 1 .. 257):
page 0 is resident and clean, so its buffer holds the 256 entries of page
0 while entry 256 (key 257) lives on disk in page 1. -/
def c7disk : List IndexEntry := (List.range 257).map (fun i => ⟨i + 1, 0, 0, 0⟩)

/-- See c7disk. -/
def c7state : DB :=
  { idxExists := true, idxHeaderCount := 257, idxDisk := c7disk,
    logExists := true, log := dbHeaderBytes,
    indexCount := 257, page := c7disk.take 256,
    currentPageNumber := 0, pageLoaded := true, pageDirty := false }

/-- C7 (counterexample to the spec): loading page 1 of a well-formed
257-entry index reads its single entry, yet slot 1 of the buffer — a
"remaining slot up to capacity P" the spec says is zero-filled — still
holds the stale entry (key 2) of the previously resident page 0. -/
theorem C7_loadPage_counterexample :
    EngineInv c7state ∧
    entriesInPageOf c7state.indexCount (1 * MAX_INDEX_ENTRIES) = 1 ∧
    (loadIndexPage c7state 1).2 = true ∧
    (loadIndexPage c7state 1).1.page.getD 1 zeroEntry ≠ zeroEntry := by
  decide

/-- C7 witness: the amended theorem applied at the concrete 257-entry
state, loading page 1. -/
theorem C7_loadPage_partial_zero_fill_witness :
    ∃ s', loadIndexPage c7state 1 = (s', true) ∧
      s'.page.length = MAX_INDEX_ENTRIES ∧
      (∀ j, j < entriesInPageOf c7state.indexCount (1 * MAX_INDEX_ENTRIES) →
        s'.page.getD j zeroEntry =
          s'.idxDisk.getD (1 * MAX_INDEX_ENTRIES + j) zeroEntry) ∧
      (∀ j, entriesInPageOf c7state.indexCount (1 * MAX_INDEX_ENTRIES) ≤ j →
        j < MAX_INDEX_ENTRIES →
        s'.page.getD j zeroEntry = c7state.page.getD j zeroEntry) :=
  C7_loadPage_partial_zero_fill c7state 1 (by decide)

/-- In a strictly ascending index, keys determine positions. -/
theorem sorted_key_unique (s : DB) (hsort : SortedIndex s) (i j : Nat)
    (hi : i < s.indexCount) (hj : j < s.indexCount)
    (he : viewKey s i = viewKey s j) : i = j := by
  rcases Nat.lt_trichotomy i j with hlt | heqq | hgt
  · have := hsort j hj i hlt
    omega
  · exact heqq
  · have := hsort i hi j hgt
    omega

/-- C6: CONFIRMED.  deleteRecord fails on a missing key; succeeds without
changing the logical index or the log when the entry's DELETED bit is
already set; and otherwise sets the DELETED bit both in the log file (a
single-byte write at byte offset entry.offset + 8) and in the index entry,
marking the page dirty. -/
theorem C6_deleteRecord_spec (s : DB) (key : Nat) (h : EngineInv s)
    (hsort : SortedIndex s) :
    ((∀ i, i < s.indexCount → viewKey s i ≠ key) →
      ∃ s', deleteRecord s key = (s', false) ∧ IndexPreserved s s') ∧
    (∀ idx, idx < s.indexCount → viewKey s idx = key →
      (viewEnt s idx).internal_status &&& INTERNAL_STATUS_DELETED ≠ 0 →
      ∃ s', deleteRecord s key = (s', true) ∧ IndexPreserved s s') ∧
    (∀ idx, idx < s.indexCount → viewKey s idx = key →
      (viewEnt s idx).internal_status &&& INTERNAL_STATUS_DELETED = 0 →
      s.logExists = true →
      ∃ s', deleteRecord s key = (s', true) ∧
        s'.indexCount = s.indexCount ∧
        viewEnt s' idx = { viewEnt s idx with
          internal_status :=
            (viewEnt s idx).internal_status ||| INTERNAL_STATUS_DELETED } ∧
        (∀ i, i < s.indexCount → i ≠ idx → viewEnt s' i = viewEnt s i) ∧
        s'.log = writeByteAt s.log ((viewEnt s idx).offset + 8)
          (((viewEnt s idx).internal_status ||| INTERNAL_STATUS_DELETED) % 256) ∧
        s'.pageDirty = true) := by
  obtain ⟨s1, r, heq, hinv1, hpres1, hfound, hnone⟩ := searchIndex_spec s key h hsort
  refine ⟨?_, ?_, ?_⟩
  · intro hmiss
    cases r with
    | some idx =>
      obtain ⟨hlt, hk⟩ := hfound idx rfl
      exact absurd hk (hmiss idx hlt)
    | none =>
      refine ⟨s1, ?_, hpres1⟩
      unfold deleteRecord
      rw [heq]
  · intro idx hidx hkey hts
    cases r with
    | none => exact absurd hkey (hnone rfl idx hidx)
    | some idx2 =>
      obtain ⟨hlt2, hk2⟩ := hfound idx2 rfl
      have hsame : idx2 = idx :=
        sorted_key_unique s hsort idx2 idx hlt2 hidx (by rw [hk2, hkey])
      subst hsame
      obtain ⟨s2, e, heqg, hinv2, hpres2, _, _, _, hval⟩ :=
        getIndexEntry_spec s1 idx2 hinv1
      have he : e = viewEnt s idx2 := by
        rw [hval (by rw [hpres1.1]; exact hidx)]
        exact hpres1.2.2.2 idx2 hidx
      refine ⟨s2, ?_, IndexPreserved_trans s s1 s2 hpres1 hpres2⟩
      unfold deleteRecord
      rw [heq]
      dsimp only
      rw [heqg]
      dsimp only
      rw [if_pos (show e.internal_status &&& INTERNAL_STATUS_DELETED ≠ 0 from by
        rw [he]
        exact hts)]
  · intro idx hidx hkey hlive hlog
    cases r with
    | none => exact absurd hkey (hnone rfl idx hidx)
    | some idx2 =>
      obtain ⟨hlt2, hk2⟩ := hfound idx2 rfl
      have hsame : idx2 = idx :=
        sorted_key_unique s hsort idx2 idx hlt2 hidx (by rw [hk2, hkey])
      subst hsame
      obtain ⟨s2, e, heqg, hinv2, hpres2, _, _, _, hval⟩ :=
        getIndexEntry_spec s1 idx2 hinv1
      have hpres12 : IndexPreserved s s2 :=
        IndexPreserved_trans s s1 s2 hpres1 hpres2
      have he : e = viewEnt s idx2 := by
        rw [hval (by rw [hpres1.1]; exact hidx)]
        exact hpres1.2.2.2 idx2 hidx
      set s3 : DB := { s2 with
        log := writeByteAt s2.log
          (e.offset + 8) ((e.internal_status ||| INTERNAL_STATUS_DELETED) % 256) }
        with hs3
      have hinv3 : EngineInv s3 := hinv2
      have hcnt3 : s3.indexCount = s.indexCount := hpres12.1
      have hview3 : ∀ g, viewEnt s3 g = viewEnt s2 g := fun _ => rfl
      obtain ⟨s4, heqs, hinv4, hcnt4, hlog4, hlex4, hvset4, hvother4, hdirty4⟩ :=
        setIndexEntry_spec s3 idx2
          { e with internal_status := e.internal_status ||| INTERNAL_STATUS_DELETED }
          hinv3 (by rw [hcnt3]; exact hidx)
      refine ⟨s4, ?_, by rw [hcnt4, hcnt3], ?_, ?_, ?_, hdirty4⟩
      · unfold deleteRecord
        rw [heq]
        dsimp only
        rw [heqg]
        dsimp only
        rw [if_neg (show ¬e.internal_status &&& INTERNAL_STATUS_DELETED ≠ 0 from by
          rw [he]
          intro hc
          exact hc hlive)]
        rw [if_neg (show ¬s2.logExists = false from by
          rw [hpres12.2.2.1, hlog]
          simp)]
        exact heqs
      · rw [hvset4, he]
      · intro i hi hne
        rw [hvother4 i (by rw [hcnt3]; exact hi) hne, hview3 i]
        exact hpres12.2.2.2 i hi
      · rw [hlog4]
        show writeByteAt s2.log (e.offset + 8)
          ((e.internal_status ||| INTERNAL_STATUS_DELETED) % 256) = _
        rw [he, hpres12.2.1]

/-- The engine state after open on a fresh database and one append of
key 5 (a live entry at position 0). -/
def w6state : DB := (append [] (openDB freshDB).1 5 1 [2]).1

/-- C6 witness: deleting the live key 5 of the concrete one-entry state
tombstones it in the index and in the log. -/
theorem C6_deleteRecord_spec_witness :
    ∃ s', deleteRecord w6state 5 = (s', true) ∧
      s'.indexCount = w6state.indexCount ∧
      viewEnt s' 0 = { viewEnt w6state 0 with
        internal_status :=
          (viewEnt w6state 0).internal_status ||| INTERNAL_STATUS_DELETED } ∧
      (∀ i, i < w6state.indexCount → i ≠ 0 → viewEnt s' i = viewEnt w6state i) ∧
      s'.log = writeByteAt w6state.log ((viewEnt w6state 0).offset + 8)
        (((viewEnt w6state 0).internal_status ||| INTERNAL_STATUS_DELETED) % 256) ∧
      s'.pageDirty = true :=
  (C6_deleteRecord_spec w6state 5 (by decide) (by decide)).2.2 0 (by decide)
    (by decide) (by decide) (by decide)

/-- Agreement of two states on every field except the log file. -/
def NonLogFieldsEq (s t : DB) : Prop :=
  t.idxExists = s.idxExists ∧ t.idxHeaderCount = s.idxHeaderCount ∧
  t.idxDisk = s.idxDisk ∧ t.indexCount = s.indexCount ∧
  t.page = s.page ∧ t.currentPageNumber = s.currentPageNumber ∧
  t.pageLoaded = s.pageLoaded ∧ t.pageDirty = s.pageDirty

/-- The log-file phase of append touches only the log fields, whatever the
fault oracle does. -/
theorem appendLogPhase_nonlog (faults : List Bool) (s : DB)
    (key recordType : Nat) (record : List Nat) :
    NonLogFieldsEq s (appendLogPhase faults s key recordType record).1 := by
  unfold appendLogPhase
  dsimp only
  split
  · exact ⟨rfl, rfl, rfl, rfl, rfl, rfl, rfl, rfl⟩
  · rename_i s1 faults1 heq
    have hnl : NonLogFieldsEq s s1 := by
      split at heq
      · injection heq with h1
        injection h1 with h2 h3
        rw [← h2]
        exact ⟨rfl, rfl, rfl, rfl, rfl, rfl, rfl, rfl⟩
      · split at heq
        · exact absurd heq (by simp)
        · split at heq
          · exact absurd heq (by simp)
          · injection heq with h1
            injection h1 with h2 h3
            rw [← h2]
            exact ⟨rfl, rfl, rfl, rfl, rfl, rfl, rfl, rfl⟩
    repeat' split
    all_goals exact hnl

/-- The logical index entries only depend on the non-log fields. -/
theorem viewEnt_nonlog (s t : DB) (h : NonLogFieldsEq s t) (g : Nat) :
    viewEnt t g = viewEnt s g := by
  obtain ⟨h1, h2, h3, h4, h5, h6, h7, h8⟩ := h
  simp only [viewEnt, resident, h3, h5, h6, h7]

/-- C9: CONFIRMED.  When the log-file phase of append fails (for any fault
pattern that makes it fail), append returns false and the logical index —
entry count and every entry, in memory and on disk — is exactly what it
was before the call. -/
theorem C9_append_log_phase_failure (faults : List Bool) (s : DB)
    (key recordType : Nat) (record : List Nat)
    (h : EngineInv s) (hsort : SortedIndex s)
    (hfail : ∀ t : DB, (appendLogPhase faults t key recordType record).2 = none) :
    ∃ s', append faults s key recordType record = (s', false) ∧
      s'.indexCount = s.indexCount ∧
      (∀ g, g < s.indexCount → viewEnt s' g = viewEnt s g) := by
  obtain ⟨s1, r, heq, hinv1, hpres1, hfound, hnone⟩ := searchIndex_spec s key h hsort
  unfold append
  rw [heq]
  cases r with
  | some idx =>
    dsimp only
    obtain ⟨s2, e, heqg, hinv2, hpres2, _, _, _, _⟩ := getIndexEntry_spec s1 idx hinv1
    rw [heqg]
    dsimp only
    have hpres12 := IndexPreserved_trans s s1 s2 hpres1 hpres2
    by_cases hlive : (e.internal_status &&& INTERNAL_STATUS_DELETED == 0) = true
    · rw [if_pos hlive]
      exact ⟨s2, rfl, hpres12.1, fun g hg => hpres12.2.2.2 g hg⟩
    · rw [if_neg hlive]
      rcases hx : appendLogPhase faults s2 key recordType record with ⟨s3, r3⟩
      have hr3 : r3 = none := by
        have hf := hfail s2
        rw [hx] at hf
        exact hf
      subst hr3
      dsimp only
      have hnl : NonLogFieldsEq s2 s3 := by
        have hn := appendLogPhase_nonlog faults s2 key recordType record
        rw [hx] at hn
        exact hn
      refine ⟨s3, rfl, ?_, ?_⟩
      · rw [hnl.2.2.2.1, hpres12.1]
      · intro g hg
        rw [viewEnt_nonlog s2 s3 hnl g]
        exact hpres12.2.2.2 g hg
  | none =>
    dsimp only
    rcases hx : appendLogPhase faults s1 key recordType record with ⟨s3, r3⟩
    have hr3 : r3 = none := by
      have hf := hfail s1
      rw [hx] at hf
      exact hf
    subst hr3
    dsimp only
    have hnl : NonLogFieldsEq s1 s3 := by
      have hn := appendLogPhase_nonlog faults s1 key recordType record
      rw [hx] at hn
      exact hn
    refine ⟨s3, rfl, ?_, ?_⟩
    · rw [hnl.2.2.2.1, hpres1.1]
    · intro g hg
      rw [viewEnt_nonlog s1 s3 hnl g]
      exact hpres1.2.2.2 g hg

/-- The engine state after open on a fresh database and one append of
key 7 (used to witness C9). -/
def w9state : DB := (append [] (openDB freshDB).1 7 1 [1]).1

/-- C9 witness: with a fault oracle that fails the log-file open and the
create fallback, append of key 9 on the concrete one-entry state returns
false and leaves the index as it was. -/
theorem C9_append_log_phase_failure_witness :
    ∃ s', append [true, true] w9state 9 1 [4] = (s', false) ∧
      s'.indexCount = w9state.indexCount ∧
      (∀ g, g < w9state.indexCount → viewEnt s' g = viewEnt w9state g) :=
  C9_append_log_phase_failure [true, true] w9state 9 1 [4] (by decide) (by decide)
    (fun t => by simp [appendLogPhase, popFault])

/-- With no injected faults and an existing log file, the log phase of
append deterministically appends the LogEntryHeader and the payload and
returns the old end-of-file offset. -/
theorem appendLogPhase_noFaults (s : DB) (key recordType : Nat)
    (record : List Nat) (hlog : s.logExists = true) :
    appendLogPhase [] s key recordType record =
      ({ s with log := (s.log ++ logEntryHeaderBytes recordType record.length key 0 0)
          ++ record.map (fun b => b % 256) }, some s.log.length) := by
  unfold appendLogPhase
  dsimp only [popFault]
  rw [hlog]
  rw [if_pos (show (true && !false) = true from rfl)]
  dsimp only
  rw [hlog]
  rfl

/-- C5 (amended): append's duplicate/tombstone policy.  A live entry for
the key aborts the call with no index change.  A tombstoned entry is
reused in place: offset overwritten with the new end-of-log offset, the
DELETED bit cleared, key and status preserved, indexCount unchanged.  A
fresh key whose sorted position lies in a page with room (no page split)
gets a new entry at that position and indexCount increments.  (When the
insertion forces a page split the new entry can land outside the logical
index and be lost — see the counterexample — so the fresh-key clause
carries the no-split room hypothesis.) -/
theorem C5_append_policy (s : DB) (key recordType : Nat) (record : List Nat)
    (h : EngineInv s) (hsort : SortedIndex s) (hlog : s.logExists = true) :
    (∀ idx, idx < s.indexCount → viewKey s idx = key →
      (viewEnt s idx).internal_status &&& INTERNAL_STATUS_DELETED = 0 →
      ∃ s', append [] s key recordType record = (s', false) ∧
        IndexPreserved s s') ∧
    (∀ idx, idx < s.indexCount → viewKey s idx = key →
      (viewEnt s idx).internal_status &&& INTERNAL_STATUS_DELETED ≠ 0 →
      ∃ s', append [] s key recordType record = (s', true) ∧
        s'.indexCount = s.indexCount ∧
        viewEnt s' idx = { viewEnt s idx with
          offset := s.log.length, internal_status := 0 } ∧
        (∀ i, i < s.indexCount → i ≠ idx → viewEnt s' i = viewEnt s i) ∧
        s'.log = (s.log ++ logEntryHeaderBytes recordType record.length key 0 0)
          ++ record.map (fun b => b % 256)) ∧
    (∀ pos, (∀ i, i < s.indexCount → viewKey s i ≠ key) →
      pos ≤ s.indexCount →
      (∀ i, i < pos → viewKey s i < key) →
      (∀ i, pos ≤ i → i < s.indexCount → key < viewKey s i) →
      s.indexCount <
        pos / MAX_INDEX_ENTRIES * MAX_INDEX_ENTRIES + MAX_INDEX_ENTRIES →
      ∃ s' ist, append [] s key recordType record = (s', true) ∧
        s'.indexCount = s.indexCount + 1 ∧
        viewEnt s' pos = ⟨key, s.log.length, 0, ist⟩ ∧
        (∀ i, i < pos → viewEnt s' i = viewEnt s i) ∧
        (∀ i, pos ≤ i → i < s.indexCount → viewEnt s' (i + 1) = viewEnt s i) ∧
        SortedIndex s' ∧
        s'.log = (s.log ++ logEntryHeaderBytes recordType record.length key 0 0)
          ++ record.map (fun b => b % 256)) := by
  obtain ⟨s1, r, heq, hinv1, hpres1, hfound, hnone⟩ := searchIndex_spec s key h hsort
  refine ⟨?_, ?_, ?_⟩
  · intro idx hidx hkey hlive
    cases r with
    | none => exact absurd hkey (hnone rfl idx hidx)
    | some idx2 =>
      obtain ⟨hlt2, hk2⟩ := hfound idx2 rfl
      have hsame : idx2 = idx :=
        sorted_key_unique s hsort idx2 idx hlt2 hidx (by rw [hk2, hkey])
      subst hsame
      obtain ⟨s2, e, heqg, hinv2, hpres2, _, _, _, hval⟩ :=
        getIndexEntry_spec s1 idx2 hinv1
      have he : e = viewEnt s idx2 := by
        rw [hval (by rw [hpres1.1]; exact hidx)]
        exact hpres1.2.2.2 idx2 hidx
      refine ⟨s2, ?_, IndexPreserved_trans s s1 s2 hpres1 hpres2⟩
      unfold append
      rw [heq]
      dsimp only
      rw [heqg]
      dsimp only
      rw [if_pos (show (e.internal_status &&& INTERNAL_STATUS_DELETED == 0) = true
        from by rw [he]; simpa using hlive)]
  · intro idx hidx hkey hts
    cases r with
    | none => exact absurd hkey (hnone rfl idx hidx)
    | some idx2 =>
      obtain ⟨hlt2, hk2⟩ := hfound idx2 rfl
      have hsame : idx2 = idx :=
        sorted_key_unique s hsort idx2 idx hlt2 hidx (by rw [hk2, hkey])
      subst hsame
      obtain ⟨s2, e, heqg, hinv2, hpres2, _, _, _, hval⟩ :=
        getIndexEntry_spec s1 idx2 hinv1
      have hpres12 : IndexPreserved s s2 :=
        IndexPreserved_trans s s1 s2 hpres1 hpres2
      have he : e = viewEnt s idx2 := by
        rw [hval (by rw [hpres1.1]; exact hidx)]
        exact hpres1.2.2.2 idx2 hidx
      have hlog2 : s2.logExists = true := by
        rw [hpres12.2.2.1]
        exact hlog
      set s3 : DB := { s2 with
        log := (s2.log ++ logEntryHeaderBytes recordType record.length key 0 0)
          ++ record.map (fun b => b % 256) } with hs3
      have hinv3 : EngineInv s3 := hinv2
      have hview32 : ∀ g, viewEnt s3 g = viewEnt s2 g := fun _ => rfl
      have hcnt3 : s3.indexCount = s.indexCount := hpres12.1
      obtain ⟨s4, e2, heqg2, hinv4, hpres34, _, _, _, hval4⟩ :=
        getIndexEntry_spec s3 idx2 hinv3
      have he2 : e2 = viewEnt s idx2 := by
        rw [hval4 (by rw [hcnt3]; exact hidx), hview32 idx2]
        exact hpres12.2.2.2 idx2 hidx
      obtain ⟨s5, heqs, hinv5, hcnt5, hlog5, hlex5, hvset5, hvother5, hdirty5⟩ :=
        setIndexEntry_spec s4 idx2
          { e2 with offset := s2.log.length, internal_status := 0 }
          hinv4 (by rw [hpres34.1, hcnt3]; exact hidx)
      refine ⟨s5, ?_, ?_, ?_, ?_, ?_⟩
      · unfold append
        rw [heq]
        dsimp only
        rw [heqg]
        dsimp only
        rw [if_neg (show ¬(e.internal_status &&& INTERNAL_STATUS_DELETED == 0) = true
          from by rw [he]; simpa using hts)]
        rw [appendLogPhase_noFaults s2 key recordType record hlog2]
        dsimp only
        rw [heqg2]
        dsimp only
        exact heqs
      · rw [hcnt5, hpres34.1, hcnt3]
      · rw [hvset5, he2, hpres12.2.1]
      · intro i hi hne
        rw [hvother5 i (by rw [hpres34.1, hcnt3]; exact hi) hne,
          hpres34.2.2.2 i (by rw [hcnt3]; exact hi), hview32 i]
        exact hpres12.2.2.2 i hi
      · rw [hlog5, hpres34.2.1]
        show s3.log = _
        rw [hs3]
        dsimp only
        rw [hpres12.2.1]
  · intro pos hmiss hpos1 hpos2 hpos3 hroom
    cases r with
    | some idx2 =>
      obtain ⟨hlt2, hk2⟩ := hfound idx2 rfl
      exact absurd hk2 (hmiss idx2 hlt2)
    | none =>
      have hlog1 : s1.logExists = true := by
        rw [hpres1.2.2.1]
        exact hlog
      set s3 : DB := { s1 with
        log := (s1.log ++ logEntryHeaderBytes recordType record.length key 0 0)
          ++ record.map (fun b => b % 256) } with hs3
      have hinv3 : EngineInv s3 := hinv1
      have hsort3 : SortedIndex s3 := sorted_preserved s s1 hsort hpres1
      have hview31 : ∀ g, viewEnt s3 g = viewEnt s1 g := fun _ => rfl
      have hcnt3 : s3.indexCount = s.indexCount := hpres1.1
      have hkey3 : ∀ i, viewKey s3 i = viewKey s1 i := fun _ => rfl
      obtain ⟨s', ist, heqI, hinvI, hcntI, hlogI, hlexI, hvposI, hvltI, hvshI,
        hsortI⟩ :=
        insertIndexEntry_spec s3 key s1.log.length 0 pos hinv3 hsort3
          (by rw [hcnt3]; exact hpos1)
          (by
            intro i hi
            rw [hkey3 i]
            show viewKey s1 i < key
            unfold viewKey
            rw [hpres1.2.2.2 i (by omega)]
            exact hpos2 i hi)
          (by
            intro i hi1 hi2
            rw [hcnt3] at hi2
            rw [hkey3 i]
            show key < viewKey s1 i
            unfold viewKey
            rw [hpres1.2.2.2 i hi2]
            exact hpos3 i hi1 hi2)
          (by rw [hcnt3]; exact hroom)
      refine ⟨s', ist, ?_, ?_, ?_, ?_, ?_, hsortI, ?_⟩
      · unfold append
        rw [heq]
        dsimp only
        rw [appendLogPhase_noFaults s1 key recordType record hlog1]
        dsimp only
        exact heqI
      · rw [hcntI, hcnt3]
      · rw [hvposI, hpres1.2.1]
      · intro i hi
        rw [hvltI i hi, hview31 i]
        exact hpres1.2.2.2 i (by omega)
      · intro i hi1 hi2
        rw [hvshI i hi1 (by rw [hcnt3]; exact hi2), hview31 i]
        exact hpres1.2.2.2 i hi2
      · rw [hlogI]
        show s3.log = _
        rw [hs3]
        dsimp only
        rw [hpres1.2.1]

/-- The engine state after open on a fresh database and one append of
key 5 (a live entry at position 0, used to witness C5). -/
def w5state : DB := (append [] (openDB freshDB).1 5 1 [2]).1

/-- C5 witness: appending the live duplicate key 5 on the concrete
one-entry state fails and leaves the index unchanged. -/
theorem C5_append_policy_witness :
    ∃ s', append [] w5state 5 1 [9] = (s', false) ∧ IndexPreserved w5state s' :=
  (C5_append_policy w5state 5 1 [9] (by decide) (by decide) (by decide)).1 0
    (by decide) (by decide) (by decide)

/-- A well-formed sorted index holding exactly the 256 even keys
2, 4, ..., 512: page 0 is full, resident and clean.  (This is the state
the engine reaches after open on a fresh database and 256 ascending
appends of those keys.) -/
def c5disk : List IndexEntry := (List.range 256).map (fun i => ⟨2 * i + 2, 0, 0, 0⟩)

/-- See c5disk. -/
def c5state : DB :=
  { idxExists := true, idxHeaderCount := 256, idxDisk := c5disk,
    logExists := true, log := dbHeaderBytes,
    indexCount := 256, page := c5disk,
    currentPageNumber := 0, pageLoaded := true, pageDirty := false }

/-- The state after appending the fresh odd key 301, whose insertion
position (150) falls in the full page 0 and triggers a page split. -/
def c5post : DB × Bool := append [] c5state 301 1 []

/-- All observations of the C5 counterexample in one pass: the starting
state is well-formed and sorted and does not contain key 301; append(301)
returns success and increments indexCount to 257, yet NO entry of the
logical index holds key 301 — the split dropped the new entry instead of
inserting it. -/
def c5check : Bool :=
  decide (EngineInv c5state) && decide (SortedIndex c5state)
    && (searchIndex c5state 301).2.isNone
    && c5post.2 && (c5post.1.indexCount == 257)
    && ((List.range 257).all (fun g => viewKey c5post.1 g != 301))

/-- C5 (counterexample to the unconditional claim): a successful append of
a fresh key into a full page does NOT insert the key — indexCount grows
but the key is nowhere in the index. -/
theorem C5_append_counterexample : c5check = true := by decide

/-- The engine state after open on a fresh database and appends of keys
10 and 20 (used to witness C8). -/
def w8state : DB := (runAppends (openDB freshDB).1 [(10, []), (20, [])]).1

/-- C8 witness: locating key 15 in the concrete two-entry index {10, 20}
(the smallest position with key ≥ 15 is position 1). -/
theorem btreeLocateKey_spec_witness :
    ∃ s' r, btreeLocateKey w8state 15 = (s', r) ∧ EngineInv s' ∧
      IndexPreserved w8state s' ∧
      (∀ p, r = some p → p < w8state.indexCount ∧ 15 ≤ viewKey w8state p ∧
        ∀ i, i < p → viewKey w8state i < 15) ∧
      (r = none → ∀ i, i < w8state.indexCount → viewKey w8state i < 15) :=
  btreeLocateKey_spec w8state 15 (by decide) (by decide)
